import Mathlib

/-!
# Verification of the iridium-stomp STOMP 1.2 codec and connection manager

A shallow embedding of the core crate's wire codec (`src/codec.rs`,
`src/parser.rs` whose slice parser appears verbatim in
`iridium-stomp/src/parser.rs`), the heartbeat negotiation and the
ack/nack/routing logic of `src/connection.rs`.

Bytes are modelled as `Nat`; Rust `String`s appearing on the wire are
modelled by their UTF-8 byte sequences, with UTF-8 validity made explicit
where the Rust code calls `String::from_utf8` / `std::str::from_utf8`.
-/

namespace Stomp

/-- Wire bytes are modelled as plain `Nat` (0..255 in the program).
UTF-8 bytes of an ASCII string literal (all our literals are ASCII,
where UTF-8 bytes and code points coincide). -/
def ascii (s : String) : List Nat := s.data.map Char.toNat

/-- `Frame` from `src/frame.rs`: command, ordered headers, raw body.
The Rust `command` and header fields are `String`s; here they are their
UTF-8 byte sequences. -/
structure Frame where
  command : List Nat
  headers : List (List Nat × List Nat)
  body : List Nat
deriving DecidableEq, Repr

/-- `StompItem` from `src/codec.rs`: a decoded frame or a heartbeat pulse. -/
inductive StompItem where
  | frame (f : Frame)
  | heartbeat
deriving DecidableEq, Repr

/-- Whether a byte is a UTF-8 continuation byte (`0x80..=0xBF`). -/
def isCont (b : Nat) : Bool := 128 ≤ b && b ≤ 191

/-- The byte DFA of Rust's `std::str::from_utf8` validation (RFC 3629:
no overlong forms, no surrogates, nothing above U+10FFFF).  `k` is the
number of continuation bytes still expected and `[lo, hi]` the admissible
range for the next one: `C2..DF` start a 2-byte character, `E0`/`ED`
constrain their first continuation to `A0..BF`/`80..9F`, `F0`/`F4` to
`90..BF`/`80..8F`, and every further continuation byte is `80..BF`. -/
def utf8Run : List Nat → Nat → Nat → Nat → Bool
  | [], 0, _, _ => true
  | [], _ + 1, _, _ => false
  | b :: rest, 0, _, _ =>
    if b ≤ 127 then utf8Run rest 0 0 0
    else if b < 194 then false
    else if b ≤ 223 then utf8Run rest 1 128 191
    else if b = 224 then utf8Run rest 2 160 191
    else if b = 237 then utf8Run rest 2 128 159
    else if b ≤ 239 then utf8Run rest 2 128 191
    else if b = 240 then utf8Run rest 3 144 191
    else if b < 244 then utf8Run rest 3 128 191
    else if b = 244 then utf8Run rest 3 128 143
    else false
  | b :: rest, k + 1, lo, hi =>
    if lo ≤ b ∧ b ≤ hi then utf8Run rest k 128 191 else false

/-- Byte-level UTF-8 validity, exactly the check performed by Rust's
`std::str::from_utf8`. -/
def utf8Valid (s : List Nat) : Bool := utf8Run s 0 0 0

/-- One byte of `escape_header_value` (`src/codec.rs` lines 15-27):
backslash, CR, LF and colon get a two-byte escape, everything else passes
through.  The Rust loop runs over `char`s of a `String`; since the four
escaped characters are ASCII and every byte of a multi-byte UTF-8 character
is ≥ 0x80, the byte-level map below is extensionally the same function on
the UTF-8 bytes. -/
def escapeByte (b : Nat) : List Nat :=
  if b = 92 then [92, 92]
  else if b = 13 then [92, 114]
  else if b = 10 then [92, 110]
  else if b = 58 then [92, 99]
  else [b]

/-- `escape_header_value` from `src/codec.rs`. -/
def escape_header_value : List Nat → List Nat
  | [] => []
  | b :: t => escapeByte b ++ escape_header_value t

/-- Modelled from the spec: `unescape_header_value` lives in the core
crate's `src/parser.rs`, which is not among the provided sources (only its
callers in `src/codec.rs` and the escape table of spec §4.2 are).  Per the
spec: `\\` ↦ backslash, `\r` ↦ CR, `\n` ↦ LF, `\c` ↦ colon; any other
character after a lone `\`, or a trailing `\`, is a protocol error
(`none`). -/
def unescape_header_value : List Nat → Option (List Nat)
  | [] => some []
  | b :: t =>
    if b = 92 then
      match t with
      | [] => none
      | c :: t' =>
        if c = 92 then (unescape_header_value t').map (92 :: ·)
        else if c = 114 then (unescape_header_value t').map (13 :: ·)
        else if c = 110 then (unescape_header_value t').map (10 :: ·)
        else if c = 99 then (unescape_header_value t').map (58 :: ·)
        else none
    else (unescape_header_value t).map (b :: ·)

/-- ASCII lowercase of one byte (`u8::to_ascii_lowercase`). -/
def lowerByte (b : Nat) : Nat := if 65 ≤ b ∧ b ≤ 90 then b + 32 else b

/-- Rust `eq_ignore_ascii_case` on byte strings: equal length and equal
bytes after ASCII lowercasing. -/
def eqIgnoreAsciiCase (a b : List Nat) : Bool :=
  a.map lowerByte == b.map lowerByte

/-- The header name `content-length` as bytes. -/
def clKey : List Nat := ascii "content-length"

/-- ASCII whitespace recognised by `str::trim` (space, TAB, LF, VT, FF,
CR).  Rust also trims non-ASCII Unicode whitespace; those occupy multiple
bytes ≥ 0x80 and never occur in the digit-string values our hypotheses
demand, where the two notions coincide. -/
def isWsp (b : Nat) : Bool :=
  b = 32 || b = 9 || b = 10 || b = 11 || b = 12 || b = 13

/-- `str::trim` on bytes: drop ASCII whitespace from both ends. -/
def trimAscii (s : List Nat) : List Nat :=
  ((s.dropWhile isWsp).reverse.dropWhile isWsp).reverse

/-- Value of an ASCII digit byte. -/
def digitVal (b : Nat) : Option Nat :=
  if 48 ≤ b ∧ b ≤ 57 then some (b - 48) else none

/-- Accumulating decimal parse of a digit string. -/
def parseNatAux : List Nat → Nat → Option Nat
  | [], acc => some acc
  | b :: t, acc =>
    match digitVal b with
    | some d => parseNatAux t (acc * 10 + d)
    | none => none

/-- Rust `usize::from_str` (`"…".parse::<usize>()`) on a 64-bit target:
an optional leading `+`, then a non-empty digit string, value `< 2^64`
(larger values overflow and error).  A leading `-` never parses for an
unsigned type. -/
def parseUsize (s : List Nat) : Option Nat :=
  let s' := if s.head? = some 43 then s.tail else s
  if s' = [] then none
  else
    match parseNatAux s' 0 with
    | some n => if n < 2 ^ 64 then some n else none
    | none => none

/-- Decimal digit bytes of `n` (Rust `usize::to_string`), most significant
first, via a fuel argument to keep the recursion structural. -/
def natToDigitsAux : Nat → Nat → List Nat
  | 0, _ => []
  | fuel + 1, n =>
    if n < 10 then [48 + n]
    else natToDigitsAux fuel (n / 10) ++ [48 + n % 10]

/-- Decimal digit bytes of `n` (Rust `usize::to_string`). -/
def natToDigits (n : Nat) : List Nat := natToDigitsAux (n + 1) n

/-! ## The slice parser (`parse_frame_slice`, `src/parser.rs`)

The core crate's `codec.rs` calls `crate::parser::parse_frame_slice`; the
same function appears in `iridium-stomp/src/parser.rs` (lines 34-145) and
is embedded from there. -/

/-- A successfully parsed frame, as returned by `parse_frame_slice`:
`(command, headers, body, consumed)` with the headers still escaped. -/
structure ParsedFrame where
  cmd : List Nat
  hdrs : List (List Nat × List Nat)
  body : Option (List Nat)
  consumed : Nat
deriving DecidableEq, Repr

/-- `get_content_length` (`parser.rs` lines 11-27): first header whose key
equals `content-length` ASCII-case-insensitively; its value must be UTF-8,
trim to something non-empty and parse as `usize`. -/
def get_content_length : List (List Nat × List Nat) → Except String (Option Nat)
  | [] => .ok none
  | (k, v) :: t =>
    if eqIgnoreAsciiCase k clKey then
      if utf8Valid v then
        let tr := trimAscii v
        if tr = [] then .error "empty content-length"
        else
          match parseUsize tr with
          | some n => .ok (some n)
          | none => .error "invalid content-length"
      else .error "content-length not utf8"
    else get_content_length t

/-- Strip one trailing CR from a line (`parser.rs`: command and header
lines drop a final `\r` before further processing). -/
def stripCr (l : List Nat) : List Nat :=
  if l.getLast? = some 13 then l.dropLast else l

/-- The header loop of `parse_frame_slice` (lines 72-103).  Processes
lines of `rem` until a blank line; returns the parsed `(key, value)`
pairs and the number of bytes consumed including the blank line, `none`
when a line is incomplete, or an error for a line without `:`.  `fuel`
only keeps the recursion structural; any `fuel ≥ rem.length + 1`
suffices. -/
def parseHeaderLines : Nat → List Nat → List (List Nat × List Nat) →
    Except String (Option (List (List Nat × List Nat) × Nat))
  | 0, _, _ => .ok none
  | _ + 1, [], _ => .ok none
  | fuel + 1, b :: t, acc =>
    if b = 10 then .ok (some (acc.reverse, 1))
    else
      match (b :: t).findIdx? (fun x => x == 10) with
      | none => .ok none
      | some lineEnd =>
        let line := stripCr ((b :: t).take lineEnd)
        match line.findIdx? (fun x => x == 58) with
        | none => .error "malformed header line"
        | some colon =>
          match parseHeaderLines fuel ((b :: t).drop (lineEnd + 1))
              ((line.take colon, line.drop (colon + 1)) :: acc) with
          | .ok (some (hs, c)) => .ok (some (hs, lineEnd + 1 + c))
          | .ok none => .ok none
          | .error e => .error e

/-- Body framing of `parse_frame_slice` (lines 106-144): `rem` is the
input after the blank line, `consumedSoFar` the bytes consumed before it.
With a `content-length` read exactly that many bytes and require a NUL;
otherwise read up to the first NUL.  One LF directly after the NUL is
consumed as part of the frame. -/
def parseBody (cmd : List Nat) (hdrs : List (List Nat × List Nat))
    (rem : List Nat) (consumedSoFar : Nat) : Except String (Option ParsedFrame) :=
  match get_content_length hdrs with
  | .error e => .error e
  | .ok (some clen) =>
    if rem.length < clen + 1 then .ok none
    else
      let body := rem.take clen
      match (rem.drop clen).head? with
      | some 0 =>
        let afterNul := rem.drop (clen + 1)
        let consumed := consumedSoFar + clen + 1 +
          (if afterNul.head? = some 10 then 1 else 0)
        .ok (some ⟨cmd, hdrs, some body, consumed⟩)
      | _ => .error "missing NUL terminator after content-length body"
  | .ok none =>
    match rem.findIdx? (fun x => x == 0) with
    | some nulRel =>
      let body := rem.take nulRel
      let afterNul := rem.drop (nulRel + 1)
      let consumed := consumedSoFar + nulRel + 1 +
        (if afterNul.head? = some 10 then 1 else 0)
      .ok (some ⟨cmd, hdrs, if body = [] then none else some body, consumed⟩)
    | none => .ok none

/-- `parse_frame_slice` (`parser.rs` lines 34-145).  Returns
`.ok none` when more bytes are needed (the caller leaves the buffer
untouched), `.error` on protocol errors, and otherwise the parsed frame
with the number of bytes consumed. -/
def parse_frame_slice (input : List Nat) : Except String (Option ParsedFrame) :=
  let p0 := (input.takeWhile (fun b => b == 10)).length
  let rest0 := input.drop p0
  match rest0.findIdx? (fun b => b == 10) with
  | some cmdEndRel =>
    let command := stripCr (rest0.take cmdEndRel)
    let afterCmd := rest0.drop (cmdEndRel + 1)
    match parseHeaderLines (afterCmd.length + 1) afterCmd [] with
    | .error e => .error e
    | .ok none => .ok none
    | .ok (some (hdrs, hc)) =>
      parseBody command hdrs (afterCmd.drop hc) (p0 + cmdEndRel + 1 + hc)
  | none =>
    match rest0.findIdx? (fun b => b == 0) with
    | some nulRel =>
      let body := rest0.take nulRel
      let afterNul := rest0.drop (nulRel + 1)
      let consumed := p0 + nulRel + 1 +
        (if afterNul.head? = some 10 then 1 else 0)
      .ok (some ⟨[], [], if body = [] then none else some body, consumed⟩)
    | none => .ok none

/-! ## The codec (`StompCodec` in `src/codec.rs`) -/

/-- Per-header post-processing of `StompCodec::decode` (lines 111-140):
unescape the key, require UTF-8, unescape the value, require UTF-8. -/
def decodeHeader (kv : List Nat × List Nat) :
    Except String (List Nat × List Nat) :=
  match unescape_header_value kv.1 with
  | none => .error "invalid escape in header key"
  | some k =>
    if utf8Valid k then
      match unescape_header_value kv.2 with
      | none => .error "invalid escape in header value"
      | some v =>
        if utf8Valid v then .ok (k, v) else .error "invalid utf8 in header value"
    else .error "invalid utf8 in header key"

/-- Fold `decodeHeader` over the raw header list, fail-fast. -/
def decodeHeaders : List (List Nat × List Nat) →
    Except String (List (List Nat × List Nat))
  | [] => .ok []
  | kv :: t =>
    match decodeHeader kv with
    | .error e => .error e
    | .ok kv' =>
      match decodeHeaders t with
      | .error e => .error e
      | .ok t' => .ok (kv' :: t')

/-- `StompCodec::decode` (`src/codec.rs` lines 86-157).  On success the
returned `Nat` is the number of bytes consumed from the front of `buf`
(the Rust code advances the buffer by `consumed`); `.ok none` asks for
more bytes with the buffer untouched. -/
def decode (buf : List Nat) : Except String (Option (StompItem × Nat)) :=
  match buf with
  | 10 :: _ => .ok (some (.heartbeat, 1))
  | _ =>
    match parse_frame_slice buf with
    | .ok none => .ok none
    | .error e => .error e
    | .ok (some pf) =>
      if utf8Valid pf.cmd then
        match decodeHeaders pf.hdrs with
        | .error e => .error e
        | .ok hdrs =>
          .ok (some (.frame ⟨pf.cmd, hdrs, pf.body.getD []⟩, pf.consumed))
      else .error "invalid utf8 in command"

/-- The `content-length` presence test of `StompCodec::encode` (line 188):
`k.to_lowercase() == "content-length"`.  Rust compares the Unicode
lowercase; on this particular right-hand side that coincides with ASCII
case-insensitive equality (no non-ASCII character lowercases into the
letters of `content-length`). -/
def hasCl (hs : List (List Nat × List Nat)) : Bool :=
  hs.any (fun kv => eqIgnoreAsciiCase kv.1 clKey)

/-- The headers actually written by `StompCodec::encode` (lines 185-195):
the frame's headers, plus an auto-inserted `content-length` when none is
present and the body contains a NUL or is not valid UTF-8. -/
def encHeaders (f : Frame) : List (List Nat × List Nat) :=
  f.headers ++
    (if ¬ hasCl f.headers ∧ (f.body.contains 0 ∨ ¬ utf8Valid f.body) then
      [(clKey, natToDigits f.body.length)]
    else [])

/-- A raw header block: for each pair the line `key ':' value LF`.  This
is the shape `parse_frame_slice`'s header loop consumes. -/
def headerBlockRaw (hs : List (List Nat × List Nat)) : List Nat :=
  hs.flatMap (fun kv => kv.1 ++ 58 :: kv.2 ++ [10])

/-- Escape both components of every header. -/
def escapeHeaders (hs : List (List Nat × List Nat)) :
    List (List Nat × List Nat) :=
  hs.map (fun kv => (escape_header_value kv.1, escape_header_value kv.2))

/-- The serialized header block: `escaped-key ':' escaped-value LF` for
each header in order (`src/codec.rs` lines 197-205). -/
def headerBlock (hs : List (List Nat × List Nat)) : List Nat :=
  headerBlockRaw (escapeHeaders hs)

/-- Frame serialization of `StompCodec::encode` (lines 181-210):
command LF, headers, separator LF, body, NUL. -/
def encodeFrame (f : Frame) : List Nat :=
  f.command ++ 10 :: (headerBlock (encHeaders f) ++ 10 :: (f.body ++ [0]))

/-- `StompCodec::encode` (lines 176-214): a heartbeat is one LF. -/
def encodeItem : StompItem → List Nat
  | .heartbeat => [10]
  | .frame f => encodeFrame f

/-- Concatenated encoding of a sequence of items. -/
def encodeItems (items : List StompItem) : List Nat :=
  items.flatMap encodeItem

/-! ## The framed read loop

`tokio_util::codec::Framed` repeatedly calls `decode` on the read buffer,
emitting items until the decoder asks for more bytes, then appends the
next chunk read from the transport.  `drain` is that inner loop (the fuel
keeps it structural; each success consumes at least one byte, so any
`fuel > buf.length` is enough), and `feed` is the outer loop over
arriving chunks.  The `Bool` reports a decode error, which is fatal. -/

def drain : Nat → List Nat → List StompItem × List Nat × Bool
  | 0, buf => ([], buf, false)
  | fuel + 1, buf =>
    match decode buf with
    | .ok (some (it, k)) =>
      let r := drain fuel (buf.drop k)
      (it :: r.1, r.2.1, r.2.2)
    | .ok none => ([], buf, false)
    | .error _ => ([], buf, true)

def feedGo : List (List Nat) → List Nat → List StompItem × List Nat × Bool
  | [], buf => ([], buf, false)
  | c :: cs, buf =>
    let b := buf ++ c
    let r := drain (b.length + 1) b
    if r.2.2 then (r.1, r.2.1, true)
    else
      let r2 := feedGo cs r.2.1
      (r.1 ++ r2.1, r2.2.1, r2.2.2)

/-- Feed a sequence of chunks to a fresh decoder, draining after each
chunk: the item sequence a `Framed` transport would deliver. -/
def feed (chunks : List (List Nat)) : List StompItem × List Nat × Bool :=
  feedGo chunks []

end Stomp

namespace Conn

/-!
## The connection manager (`src/connection.rs`)

This layer works with Rust `String`s, modelled as Lean `String`s, and
frames as built by `Frame::new(..).header(..)`.  Time, tasks and channels
are I/O; what is embedded is the pure state logic: heartbeat negotiation,
the pending-delivery bookkeeping of `ack`/`nack`, and the routing decision
taken for each inbound frame.
-/

/-- `Frame` from `src/frame.rs` at the connection layer (`String` fields,
byte body). -/
structure Frame where
  command : String
  headers : List (String × String)
  body : List Nat
deriving DecidableEq, Repr

/-- `Frame::header` (builder): append one header, preserving order. -/
def Frame.header (f : Frame) (k v : String) : Frame :=
  { f with headers := f.headers ++ [(k, v)] }

/-- `Frame::get_header`: first value whose key matches case-sensitively. -/
def Frame.get_header (f : Frame) (key : String) : Option String :=
  (f.headers.find? (fun kv => kv.1 == key)).map (·.2)

/-- `negotiate_heartbeats` (`src/connection.rs` lines 103-123).
Durations are carried as milliseconds.  `Connection::connect` calls this
as `negotiate_heartbeats(cx, cy, sx, sy)` where `(cx, cy)` is the parsed
client `heart-beat` header and `(sx, sy)` the server's. -/
def negotiate_heartbeats (client_out client_in server_out server_in : Nat) :
    Option Nat × Option Nat :=
  let negotiated_out_ms := max client_out server_in
  let negotiated_in_ms := max client_in server_out
  (if negotiated_out_ms = 0 then none else some negotiated_out_ms,
   if negotiated_in_ms = 0 then none else some negotiated_in_ms)

/-- `SubscriptionEntry` (`src/connection.rs` lines 16-21).  The
`mpsc::Sender<Frame>` endpoint is an I/O handle; delivery to it is
modelled as a routing effect instead. -/
structure SubscriptionEntry where
  id : String
  ack : String
  headers : List (String × String)
deriving DecidableEq, Repr

/-- The subscription table `destination -> Vec<SubscriptionEntry>`.
Rust uses a `HashMap` (unspecified iteration order); the association list
stands in for one iteration order, and all claims proved below only rely
on key lookup or on searches for a unique id. -/
abbrev Subscriptions := List (String × List SubscriptionEntry)

/-- The pending map `subscription id -> VecDeque<(message-id, Frame)>`. -/
abbrev PendingMap := List (String × List (String × Frame))

/-- Association-list lookup (HashMap `get`). -/
def mapGet {α : Type} (m : List (String × α)) (k : String) : Option α :=
  (m.find? (fun kv => kv.1 == k)).map (·.2)

/-- Association-list update of an existing key (HashMap in-place `get_mut`). -/
def mapSet {α : Type} (m : List (String × α)) (k : String) (v : α) :
    List (String × α) :=
  m.map (fun kv => if kv.1 == k then (kv.1, v) else kv)

/-- Association-list key removal (HashMap `remove`). -/
def mapRemove {α : Type} (m : List (String × α)) (k : String) :
    List (String × α) :=
  m.filter (fun kv => kv.1 != k)

/-- The ack-mode lookup inside `Connection::ack`/`nack` (lines 793-805):
scan the subscription table for the entry with this id; when the
subscription is not recorded the mode silently stays at the default
`"client"`. -/
def lookupAckMode (subs : Subscriptions) (sid : String) : String :=
  match subs.flatMap (fun dv => dv.2.filter (fun e => e.id == sid)) with
  | [] => "client"
  | e :: _ => e.ack

/-- The pending-queue update shared by `Connection::ack` and
`Connection::nack` (lines 786-823 / 853-887): locate the message in the
subscription's queue; in `client` mode pop everything through it, in any
other mode remove just that entry; drop the key when the queue empties. -/
def ackRemove (subs : Subscriptions) (pending : PendingMap)
    (subscription_id message_id : String) : PendingMap :=
  match mapGet pending subscription_id with
  | none => pending
  | some queue =>
    match queue.findIdx? (fun e => e.1 == message_id) with
    | none => pending
    | some pos =>
      let ackMode := lookupAckMode subs subscription_id
      let queue' :=
        if ackMode = "client" then queue.drop (pos + 1) else queue.eraseIdx pos
      if queue' = [] then mapRemove pending subscription_id
      else mapSet pending subscription_id queue'

/-- `Connection::ack` (lines 786-839): update the pending map and emit
`ACK` with `id` and `subscription` headers (sent even when nothing
matched locally). -/
def ack (subs : Subscriptions) (pending : PendingMap)
    (subscription_id message_id : String) : PendingMap × Frame :=
  (ackRemove subs pending subscription_id message_id,
   ((Frame.mk "ACK" [] []).header "id" message_id).header
     "subscription" subscription_id)

/-- `Connection::nack` (lines 853-900): identical removal semantics,
emitting `NACK`. -/
def nack (subs : Subscriptions) (pending : PendingMap)
    (subscription_id message_id : String) : PendingMap × Frame :=
  (ackRemove subs pending subscription_id message_id,
   ((Frame.mk "NACK" [] []).header "id" message_id).header
     "subscription" subscription_id)

/-- Observable actions of the inbound router: a clone handed to a
subscription's endpoint (`entry.sender.try_send(f.clone())`), a pending
receipt resolved (`sender.send(())`), or a frame forwarded to the generic
inbound channel (`in_tx.send(f)`). -/
inductive RouteEffect where
  | toSubscription (subId : String) (f : Frame)
  | resolveReceipt (rid : String)
  | toInbound (f : Frame)
deriving DecidableEq, Repr

/-- ASCII lowercase of a character. -/
def lowerChar (c : Char) : Char :=
  if 65 ≤ c.toNat ∧ c.toNat ≤ 90 then Char.ofNat (c.toNat + 32) else c

/-- ASCII lowercase of a string: models Rust's `to_lowercase` in the
header-name comparisons below, where the right-hand sides are ASCII names
that no non-ASCII character lowercases into. -/
def lowerStr (s : String) : String := ⟨s.data.map lowerChar⟩

/-- The header scan at the top of the MESSAGE arm (lines 319-331): the
loop overwrites on every case-insensitive match, so the *last* matching
header wins. -/
def lastHeaderCi (f : Frame) (name : String) : Option String :=
  f.headers.foldl
    (fun acc kv => if lowerStr kv.1 == name then some kv.2 else acc) none

/-- The `need_pending` test (lines 333-354): some matching subscription
has a non-`auto` ack mode; matching is by subscription id when present,
else by destination. -/
def needPending (subs : Subscriptions) (subOpt destOpt : Option String) : Bool :=
  match subOpt with
  | some sid =>
    subs.any (fun dv => dv.2.any (fun e => e.id == sid && e.ack != "auto"))
  | none =>
    match destOpt with
    | some d =>
      match mapGet subs d with
      | some vec => vec.any (fun e => e.ack != "auto")
      | none => false
    | none => false

/-- `pending.entry(sid).or_insert_with(VecDeque::new).push_back(entry)`. -/
def pushPending (p : PendingMap) (sid : String) (e : String × Frame) :
    PendingMap :=
  match mapGet p sid with
  | some q => mapSet p sid (q ++ [e])
  | none => p ++ [(sid, [e])]

/-- The pending-map insertion of the MESSAGE arm (lines 360-384). -/
def recordPending (subs : Subscriptions) (pending : PendingMap)
    (subOpt destOpt msgIdOpt : Option String) (np : Bool) (f : Frame) :
    PendingMap :=
  match msgIdOpt, np with
  | some mid, true =>
    match subOpt with
    | some sid => pushPending pending sid (mid, f)
    | none =>
      match destOpt with
      | some d =>
        ((mapGet subs d).getD []).foldl
          (fun p e => pushPending p e.id (mid, f)) pending
      | none => pending
  | _, _ => pending

/-- One step of the inbound routing loop for a decoded frame
(`Connection::connect`, lines 314-418).  Returns the updated pending map
and pending-receipt set together with the emitted effects, in program
order.  `prs` is the pending-receipt registry (the one-shot notifiers
keyed by receipt id); closed/full subscription endpoints (runtime channel
state) are outside the model, so every `try_send` shows up as a
`toSubscription` effect. -/
def routeInbound (subs : Subscriptions) (prs : List String)
    (pending : PendingMap) (f : Frame) :
    PendingMap × List String × List RouteEffect :=
  if f.command = "MESSAGE" then
    let destOpt := lastHeaderCi f "destination"
    let subOpt := lastHeaderCi f "subscription"
    let msgIdOpt := lastHeaderCi f "message-id"
    let np := needPending subs subOpt destOpt
    let pending' := recordPending subs pending subOpt destOpt msgIdOpt np f
    let delivered :=
      match subOpt with
      | some sid =>
        (subs.flatMap (fun dv => dv.2.filter (fun e => e.id == sid))).map
          (fun e => RouteEffect.toSubscription e.id f)
      | none =>
        match destOpt with
        | some d =>
          (((mapGet subs d).getD []).map
            (fun e => RouteEffect.toSubscription e.id f))
        | none => []
    (pending', prs, delivered ++ [.toInbound f])
  else if f.command = "RECEIPT" then
    match f.get_header "receipt-id" with
    | some rid =>
      if prs.contains rid then (pending, prs.erase rid, [.resolveReceipt rid])
      else (pending, prs, [])
    | none => (pending, prs, [])
  else (pending, prs, [.toInbound f])

end Conn

namespace Stomp

/-! ## Concrete instances referenced by individual claims -/

/-- The literal stream of spec §8 scenario 4:
`\nSEND\n\nhi\0\n\nMESSAGE\nmessage-id:1\n\nbody\0\n\n`. -/
def c4Stream : List Nat :=
  [10] ++ ascii "SEND\n\nhi" ++ [0] ++ [10, 10] ++
    ascii "MESSAGE\nmessage-id:1\n\nbody" ++ [0] ++ [10, 10]

/-- The SEND frame scenario 4 expects. -/
def c4SendFrame : Frame := ⟨ascii "SEND", [], ascii "hi"⟩

/-- The MESSAGE frame scenario 4 expects. -/
def c4MessageFrame : Frame :=
  ⟨ascii "MESSAGE", [(ascii "message-id", ascii "1")], ascii "body"⟩

/-- A frame whose caller-supplied `content-length` header (5) disagrees
with its 2-byte body. -/
def c1Mismatch : Frame :=
  ⟨ascii "SEND", [(ascii "content-length", ascii "5")], ascii "hi"⟩

/-- A plain SEND frame used to exhibit chunk dependence. -/
def c2SendFrame : Frame := ⟨ascii "SEND", [], ascii "hi"⟩

/-- The encoding of a SEND frame followed by one heartbeat pulse. -/
def c2Stream : List Nat := encodeItems [.frame c2SendFrame, .heartbeat]

/-- A buffer holding a command line, a block of header lines, a blank
line, and then `tail`: the shape reaching the parser's body phase. -/
def mkFrameInput (cmd : List Nat) (hs : List (List Nat × List Nat))
    (tail : List Nat) : List Nat :=
  cmd ++ 10 :: (headerBlockRaw hs ++ 10 :: tail)

/-- A buffer whose header section contains, after `hs` well-formed
header lines, a line `bad` with no colon. -/
def mkBadHeaderInput (cmd : List Nat) (hs : List (List Nat × List Nat))
    (bad rest : List Nat) : List Nat :=
  cmd ++ 10 :: (headerBlockRaw hs ++ (bad ++ 10 :: rest))

/-- Well-formedness of a raw header pair as a parsable line: no LF in key
or value, no colon in the key, and the value does not end in CR. -/
def lineOk (kv : List Nat × List Nat) : Prop :=
  (10 : Nat) ∉ kv.1 ∧ (58 : Nat) ∉ kv.1 ∧ (10 : Nat) ∉ kv.2 ∧
    kv.2.getLast? ≠ some 13

instance : DecidablePred lineOk := fun kv => by
  unfold lineOk
  infer_instance

instance instDecEqExcept {ε α : Type} [DecidableEq ε] [DecidableEq α] :
    DecidableEq (Except ε α)
  | .error e, .error e' =>
    if h : e = e' then .isTrue (by rw [h])
    else .isFalse (fun hh => h (Except.error.inj hh))
  | .error _, .ok _ => .isFalse (fun hh => Except.noConfusion hh)
  | .ok _, .error _ => .isFalse (fun hh => Except.noConfusion hh)
  | .ok a, .ok a' =>
    if h : a = a' then .isTrue (by rw [h])
    else .isFalse (fun hh => h (Except.ok.inj hh))

/-- A wire-special byte: one the escape table rewrites. -/
def specialByte (b : Nat) : Bool :=
  b == 92 || b == 13 || b == 10 || b == 58

/-- No byte of `s` is rewritten by the escape table (so `s` is its own
escape). -/
def noSpecials (s : List Nat) : Bool := s.all (fun b => ! specialByte b)

/-- The value of the first header whose key reads `content-length`
ASCII-case-insensitively — the header `get_content_length` will use. -/
def findFirstCl (hs : List (List Nat × List Nat)) : Option (List Nat) :=
  (hs.find? (fun kv => eqIgnoreAsciiCase kv.1 clKey)).map (·.2)

/-- Sanity of a caller-supplied `content-length` header: if the frame
carries one, its value is escape-invariant and parses (after trimming) to
the body's byte length.  Frames without such a header satisfy this
vacuously. -/
def clOk (f : Frame) : Prop :=
  match findFirstCl f.headers with
  | none => True
  | some v => noSpecials v = true ∧ parseUsize (trimAscii v) = some f.body.length

instance : DecidablePred clOk := fun f => by
  unfold clOk
  split <;> infer_instance

/-- A mixed-case `content-length` header announcing 2 body bytes. -/
def c3Hdrs : List (List Nat × List Nat) :=
  [(ascii "Content-Length", ascii "2")]

/-- Body region with 2 body bytes, the NUL, and further buffered bytes. -/
def c3Tail : List Nat := ascii "ab" ++ 0 :: ascii "XYZ"

/-- Body region with fewer than 3 bytes buffered. -/
def c3TailShort : List Nat := ascii "ab"

/-- Body region whose byte after the 2 body bytes is `Q`, not NUL. -/
def c3TailBad : List Nat := ascii "abQ" ++ [0]

/-- A frame with a binary body, exercising the auto-inserted
`content-length` on the round trip. -/
def c1Wit : Frame := ⟨ascii "SEND", [(ascii "destination", ascii "/q/a")], [0, 1, 2]⟩

/-- A well-formed header preceding the offending line in the C8 witness. -/
def c8Hdrs : List (List Nat × List Nat) := [(ascii "destination", ascii "/q/a")]

/-- A header line without any colon. -/
def c8Bad : List Nat := ascii "justtext"

/-- Validity of a frame for a clean round trip: non-empty command without
LF, no trailing CR in the command, UTF-8 command and header texts, a body
shorter than `usize::MAX`, and any caller-supplied `content-length`
consistent with the body (`clOk`). -/
def frameOk (f : Frame) : Prop :=
  f.command ≠ [] ∧ (10 : Nat) ∉ f.command ∧ f.command.getLast? ≠ some 13 ∧
    utf8Valid f.command = true ∧
    (∀ kv ∈ f.headers, utf8Valid kv.1 = true ∧ utf8Valid kv.2 = true) ∧
    f.body.length < 2 ^ 64 ∧ clOk f

instance : DecidablePred frameOk := fun f => by
  unfold frameOk
  infer_instance

/-- The item the decoder reconstructs from the encoding of an item: a
heartbeat stays a heartbeat, a frame comes back carrying the headers the
encoder actually wrote (`encHeaders`, i.e. with the auto-inserted
`content-length` when one was added). -/
def decItem : StompItem → StompItem
  | .heartbeat => .heartbeat
  | .frame f => .frame ⟨f.command, encHeaders f, f.body⟩

/-- The item list does not begin with a heartbeat pulse. -/
def headNotHb : List StompItem → Prop
  | .heartbeat :: _ => False
  | _ => True

instance : DecidablePred headNotHb := fun l => by
  unfold headNotHb
  split <;> infer_instance

/-- An item sequence whose concatenated encoding re-parses the same way
at every chunk boundary: every frame is `frameOk` with a NUL-free
command, and no heartbeat pulse directly follows a frame (such a pulse's
LF is swallowed as the frame's optional trailing LF whenever the two are
buffered together, but survives when they arrive separately). -/
def validSeq : List StompItem → Prop
  | [] => True
  | .heartbeat :: t => validSeq t
  | .frame f :: t =>
    frameOk f ∧ (0 : Nat) ∉ f.command ∧ headNotHb t ∧ validSeq t

instance instDecValidSeq : (l : List StompItem) → Decidable (validSeq l)
  | [] => .isTrue trivial
  | .heartbeat :: t => instDecValidSeq t
  | .frame _ :: t =>
    have : Decidable (validSeq t) := instDecValidSeq t
    inferInstanceAs (Decidable (_ ∧ _ ∧ _ ∧ _))

/-- The shape of a drained, still-incomplete read buffer against the
remaining items: strictly shorter than the first item's encoding, and
empty when no items remain. -/
def properPrefixAt (p : List Nat) : List StompItem → Prop
  | [] => p = []
  | i :: _ => p.length < (encodeItem i).length

/-- The item sequence of `c2Stream`: a frame immediately followed by a
heartbeat — the pattern whose decoding depends on chunk boundaries. -/
def c2Items : List StompItem := [.frame c2SendFrame, .heartbeat]

/-- Items for the C2 witness: a heartbeat, then a frame. -/
def c2WitItems : List StompItem := [.heartbeat, .frame c2SendFrame]

/-- The byte-by-byte chunking of the C2 witness stream. -/
def c2WitChunks : List (List Nat) :=
  (encodeItems c2WitItems).map (fun b => [b])

end Stomp

namespace Conn

/-- Subscription table with `s1` on `/queue/x` in `client` mode. -/
def c6Subs : Subscriptions := [("/queue/x", [⟨"s1", "client", []⟩])]

/-- A MESSAGE with the given `message-id`, as captured into the pending
queue. -/
def c6Frame (mid : String) : Frame :=
  Frame.mk "MESSAGE" [("message-id", mid)] []

/-- Arrival-ordered pending queue `[m1, m2, m3]` for `s1`. -/
def c6Queue : List (String × Frame) :=
  [("m1", c6Frame "m1"), ("m2", c6Frame "m2"), ("m3", c6Frame "m3")]

/-- Pending map holding `[m1, m2, m3]` under `s1`. -/
def c6Pending : PendingMap := [("s1", c6Queue)]

/-- Subscription table without any entry for `sOld` (only `s9` exists). -/
def c10Subs : Subscriptions := [("/queue/y", [⟨"s9", "client-individual", []⟩])]

/-- Pending queue `[a, b, c]` left behind for the removed `sOld`. -/
def c10Queue : List (String × Frame) :=
  [("a", c6Frame "a"), ("b", c6Frame "b"), ("c", c6Frame "c")]

/-- Pending map for the removed subscription `sOld`. -/
def c10Pending : PendingMap := [("sOld", c10Queue)]

/-- A MESSAGE addressed to subscription `s1`. -/
def c7Msg : Frame :=
  Frame.mk "MESSAGE"
    [("destination", "/queue/x"), ("subscription", "s1"), ("message-id", "m1")] []

/-- A second MESSAGE for `s1` (used by the witness). -/
def c7Msg2 : Frame :=
  Frame.mk "MESSAGE"
    [("destination", "/queue/x"), ("subscription", "s1"), ("message-id", "m2")] []

/-- A RECEIPT for the registered receipt id `r1`. -/
def c7Receipt : Frame := Frame.mk "RECEIPT" [("receipt-id", "r1")] []

/-- Subscription table with `s1` on `/queue/x` in `auto` mode. -/
def c7Subs : Subscriptions := [("/queue/x", [⟨"s1", "auto", []⟩])]

end Conn

/-! # Theorems -/

namespace Stomp

/-! ## Parser toolbox -/

theorem hbr_cons (kv : List Nat × List Nat)
    (hs : List (List Nat × List Nat)) :
    headerBlockRaw (kv :: hs) =
      kv.1 ++ 58 :: (kv.2 ++ 10 :: headerBlockRaw hs) := by
  simp [headerBlockRaw]

theorem hbr_len_ge (hs : List (List Nat × List Nat)) :
    hs.length ≤ (headerBlockRaw hs).length := by
  induction hs with
  | nil => simp [headerBlockRaw]
  | cons kv hs ih =>
    rw [hbr_cons]
    simp only [List.length_append, List.length_cons]
    omega

theorem findIdxMarker {p : Nat → Bool} {xs : List Nat} {y : Nat}
    (ys : List Nat) (hxs : ∀ x ∈ xs, p x = false) (hy : p y = true) :
    List.findIdx? p (xs ++ y :: ys) = some xs.length := by
  rw [List.findIdx?_append, List.findIdx?_eq_none_iff.2 hxs]
  simp [List.findIdx?_cons, hy]

theorem stripCr_of_ne {l : List Nat} (h : l.getLast? ≠ some 13) :
    stripCr l = l := by
  unfold stripCr
  rw [if_neg h]

theorem mem_stripCr {x : Nat} {l : List Nat} (h : x ∈ stripCr l) : x ∈ l := by
  unfold stripCr at h
  split at h
  · exact (List.dropLast_sublist l).subset h
  · exact h

theorem lineLast {k v : List Nat} (hv : v.getLast? ≠ some 13) :
    (k ++ 58 :: v).getLast? ≠ some 13 := by
  rcases List.eq_nil_or_concat v with rfl | ⟨v', b, rfl⟩
  · have h : k ++ 58 :: ([] : List Nat) = k ++ [58] := rfl
    rw [h, List.getLast?_concat]
    simp
  · simp only [List.concat_eq_append] at hv ⊢
    have h : k ++ 58 :: (v' ++ [b]) = (k ++ 58 :: v') ++ [b] := by simp
    rw [h, List.getLast?_concat]
    rw [List.getLast?_concat] at hv
    exact hv

/-- Unfolding of the header loop on a non-empty buffer whose first byte
is not LF. -/
theorem parseHeaderLines_cons_ne (b : Nat) (t : List Nat)
    (acc : List (List Nat × List Nat)) (fuel : Nat) (hb : ¬ b = 10) :
    parseHeaderLines (fuel + 1) (b :: t) acc =
      match List.findIdx? (fun x => x == (10 : Nat)) (b :: t) with
      | none => .ok none
      | some lineEnd =>
        match List.findIdx? (fun x => x == (58 : Nat))
            (stripCr ((b :: t).take lineEnd)) with
        | none => .error "malformed header line"
        | some colon =>
          match parseHeaderLines fuel ((b :: t).drop (lineEnd + 1))
              (((stripCr ((b :: t).take lineEnd)).take colon,
                (stripCr ((b :: t).take lineEnd)).drop (colon + 1)) :: acc) with
          | .ok (some (hs, c)) => .ok (some (hs, lineEnd + 1 + c))
          | .ok none => .ok none
          | .error e => .error e := by
  rw [parseHeaderLines]
  rw [if_neg hb]

/-- The head of a header-section buffer starting with a line
`k ':' v …` is never LF. -/
theorem lineHead_ne_lf {k v rest : List Nat} {b : Nat} {t : List Nat}
    (hk10 : (10 : Nat) ∉ k)
    (heq : k ++ 58 :: (v ++ 10 :: rest) = b :: t) : ¬ b = 10 := by
  rcases k with _ | ⟨a, k'⟩
  · simp only [List.nil_append, List.cons.injEq] at heq
    obtain ⟨h1, -⟩ := heq
    intro hb
    subst hb
    exact absurd h1 (by decide)
  · simp only [List.cons_append, List.cons.injEq] at heq
    intro hb
    exact hk10 (by simp [heq.1, hb])

/-- Processing one well-formed header line: the loop strips it off,
pushes `(k, v)` on the accumulator and accounts its `|k| + |v| + 2`
bytes. -/
theorem parseHeaderLines_step (k v rest : List Nat)
    (acc : List (List Nat × List Nat)) (fuel : Nat)
    (hk10 : (10 : Nat) ∉ k) (hk58 : (58 : Nat) ∉ k)
    (hv10 : (10 : Nat) ∉ v) (hvcr : v.getLast? ≠ some 13) :
    parseHeaderLines (fuel + 1) (k ++ 58 :: (v ++ 10 :: rest)) acc =
      match parseHeaderLines fuel rest ((k, v) :: acc) with
      | .ok (some (hs, c)) => .ok (some (hs, k.length + 1 + v.length + 1 + c))
      | .ok none => .ok none
      | .error e => .error e := by
  have hin : k ++ 58 :: (v ++ 10 :: rest) = (k ++ 58 :: v) ++ 10 :: rest := by
    simp
  have hnot10 : ∀ x ∈ k ++ 58 :: v, (x == (10 : Nat)) = false := by
    intro x hx
    simp only [beq_eq_false_iff_ne]
    rcases List.mem_append.1 hx with hx | hx
    · intro hx10
      exact hk10 (hx10 ▸ hx)
    · rcases List.mem_cons.1 hx with rfl | hx
      · simp
      · intro hx10
        exact hv10 (hx10 ▸ hx)
  have hfind10 : List.findIdx? (fun x => x == (10 : Nat))
      (k ++ 58 :: (v ++ 10 :: rest)) = some (k ++ 58 :: v).length := by
    rw [hin]
    exact findIdxMarker rest hnot10 (by simp)
  have hnot58 : ∀ x ∈ k, (x == (58 : Nat)) = false := by
    intro x hx
    simp only [beq_eq_false_iff_ne]
    intro hx58
    exact hk58 (hx58 ▸ hx)
  have htake : (k ++ 58 :: (v ++ 10 :: rest)).take (k ++ 58 :: v).length =
      k ++ 58 :: v := by
    rw [hin]
    exact List.take_left' rfl
  have hstrip : stripCr (k ++ 58 :: v) = k ++ 58 :: v :=
    stripCr_of_ne (lineLast hvcr)
  have hfind58 : List.findIdx? (fun x => x == (58 : Nat)) (k ++ 58 :: v) =
      some k.length :=
    findIdxMarker v hnot58 (by simp)
  have htakek : (k ++ 58 :: v).take k.length = k := List.take_left' rfl
  have hdropk : (k ++ 58 :: v).drop (k.length + 1) = v := by
    have : k ++ 58 :: v = (k ++ [58]) ++ v := by simp
    rw [this]
    exact List.drop_left' (by simp)
  have hdropline : (k ++ 58 :: (v ++ 10 :: rest)).drop
      ((k ++ 58 :: v).length + 1) = rest := by
    have h : k ++ 58 :: (v ++ 10 :: rest) = ((k ++ 58 :: v) ++ [10]) ++ rest := by
      simp
    rw [h]
    exact List.drop_left'
      (by simp only [List.length_append, List.length_cons, List.length_nil])
  obtain ⟨b, t, heq⟩ :=
    List.exists_cons_of_ne_nil (l := k ++ 58 :: (v ++ 10 :: rest)) (by simp)
  have hb := lineHead_ne_lf hk10 heq
  rw [heq, parseHeaderLines_cons_ne b t acc fuel hb, ← heq]
  rw [hfind10]
  dsimp only
  rw [htake, hstrip, hfind58]
  dsimp only
  rw [htakek, hdropk, hdropline]
  have hlen : (k ++ 58 :: v).length = k.length + 1 + v.length := by
    simp only [List.length_append, List.length_cons]
    omega
  rw [hlen]

/-- A full well-formed header block followed by the blank line parses to
exactly its pairs, consuming the block plus the blank line. -/
theorem parseHeaderLines_complete
    (hs : List (List Nat × List Nat)) (tail : List Nat)
    (acc : List (List Nat × List Nat)) (fuel : Nat)
    (hwf : ∀ kv ∈ hs, lineOk kv) (hfuel : hs.length + 1 ≤ fuel) :
    parseHeaderLines fuel (headerBlockRaw hs ++ 10 :: tail) acc =
      .ok (some (acc.reverse ++ hs, (headerBlockRaw hs).length + 1)) := by
  induction hs generalizing acc fuel with
  | nil =>
    obtain ⟨f, rfl⟩ : ∃ f, fuel = f + 1 := ⟨fuel - 1, by omega⟩
    simp [headerBlockRaw, parseHeaderLines]
  | cons kv hs ih =>
    obtain ⟨f, rfl⟩ : ∃ f, fuel = f + 1 := ⟨fuel - 1, by omega⟩
    obtain ⟨hk10, hk58, hv10, hvcr⟩ := hwf kv (List.mem_cons_self _ _)
    rw [hbr_cons]
    rw [show (kv.1 ++ 58 :: (kv.2 ++ 10 :: headerBlockRaw hs)) ++ 10 :: tail =
      kv.1 ++ 58 :: (kv.2 ++ 10 :: (headerBlockRaw hs ++ 10 :: tail)) by simp]
    rw [parseHeaderLines_step kv.1 kv.2 (headerBlockRaw hs ++ 10 :: tail)
      acc f hk10 hk58 hv10 hvcr]
    rw [ih ((kv.1, kv.2) :: acc) f
      (fun x hx => hwf x (List.mem_cons_of_mem _ hx))
      (by simp at hfuel ⊢; omega)]
    simp only [List.reverse_cons, List.append_assoc, List.singleton_append,
      Except.ok.injEq, Option.some.injEq, Prod.mk.injEq]
    constructor
    · trivial
    · simp only [List.length_append, List.length_cons]
      omega

/-- A buffer without any LF makes the header loop ask for more bytes. -/
theorem parseHeaderLines_noLf (part : List Nat)
    (acc : List (List Nat × List Nat)) (fuel : Nat)
    (h10 : (10 : Nat) ∉ part) :
    parseHeaderLines fuel part acc = .ok none := by
  cases fuel with
  | zero => rfl
  | succ f =>
    cases part with
    | nil => rfl
    | cons b t =>
      have hb : ¬ b = 10 := by
        intro hb
        exact h10 (hb ▸ List.mem_cons_self b t)
      rw [parseHeaderLines_cons_ne b t acc f hb]
      rw [List.findIdx?_eq_none_iff.2 (fun x hx => by
        simp only [beq_eq_false_iff_ne]
        intro hx10
        exact h10 (hx10 ▸ hx))]

/-- Well-formed lines followed by an LF-free partial line make the header
loop ask for more bytes. -/
theorem parseHeaderLines_linesPartial
    (hs : List (List Nat × List Nat)) (part : List Nat)
    (acc : List (List Nat × List Nat)) (fuel : Nat)
    (hwf : ∀ kv ∈ hs, lineOk kv) (h10 : (10 : Nat) ∉ part)
    (hfuel : hs.length + 1 ≤ fuel) :
    parseHeaderLines fuel (headerBlockRaw hs ++ part) acc = .ok none := by
  induction hs generalizing acc fuel with
  | nil =>
    simpa [headerBlockRaw] using parseHeaderLines_noLf part acc fuel h10
  | cons kv hs ih =>
    obtain ⟨f, rfl⟩ : ∃ f, fuel = f + 1 := ⟨fuel - 1, by omega⟩
    obtain ⟨hk10, hk58, hv10, hvcr⟩ := hwf kv (List.mem_cons_self _ _)
    rw [hbr_cons]
    rw [show (kv.1 ++ 58 :: (kv.2 ++ 10 :: headerBlockRaw hs)) ++ part =
      kv.1 ++ 58 :: (kv.2 ++ 10 :: (headerBlockRaw hs ++ part)) by simp]
    rw [parseHeaderLines_step kv.1 kv.2 (headerBlockRaw hs ++ part)
      acc f hk10 hk58 hv10 hvcr]
    rw [ih ((kv.1, kv.2) :: acc) f
      (fun x hx => hwf x (List.mem_cons_of_mem _ hx))
      (by simp at hfuel ⊢; omega)]

/-- A non-empty, colon-free header line makes the loop fail with the
malformed-header protocol error. -/
theorem parseHeaderLines_badTerminal (bad rest : List Nat)
    (acc : List (List Nat × List Nat)) (fuel : Nat)
    (hne : bad ≠ []) (h10 : (10 : Nat) ∉ bad) (h58 : (58 : Nat) ∉ bad) :
    parseHeaderLines (fuel + 1) (bad ++ 10 :: rest) acc =
      .error "malformed header line" := by
  obtain ⟨b, t, heq⟩ :=
    List.exists_cons_of_ne_nil (l := bad ++ 10 :: rest) (by simp)
  have hb : ¬ b = 10 := by
    rcases bad with _ | ⟨a, bad'⟩
    · exact absurd rfl hne
    · simp only [List.cons_append, List.cons.injEq] at heq
      intro hb
      exact h10 (by simp [heq.1, hb])
  rw [heq, parseHeaderLines_cons_ne b t acc fuel hb, ← heq]
  rw [findIdxMarker rest (fun x hx => by
    simp only [beq_eq_false_iff_ne]
    intro hx10
    exact h10 (hx10 ▸ hx)) (by simp)]
  dsimp only
  rw [List.take_left' rfl]
  rw [List.findIdx?_eq_none_iff.2 (fun x hx => by
    simp only [beq_eq_false_iff_ne]
    intro hx58
    exact h58 (hx58 ▸ mem_stripCr hx))]

/-- Well-formed lines followed by a colon-free line error out. -/
theorem parseHeaderLines_linesBad
    (hs : List (List Nat × List Nat)) (bad rest : List Nat)
    (acc : List (List Nat × List Nat)) (fuel : Nat)
    (hwf : ∀ kv ∈ hs, lineOk kv)
    (hbne : bad ≠ []) (hb10 : (10 : Nat) ∉ bad) (hb58 : (58 : Nat) ∉ bad)
    (hfuel : hs.length + 1 ≤ fuel) :
    parseHeaderLines fuel (headerBlockRaw hs ++ (bad ++ 10 :: rest)) acc =
      .error "malformed header line" := by
  induction hs generalizing acc fuel with
  | nil =>
    obtain ⟨f, rfl⟩ : ∃ f, fuel = f + 1 := ⟨fuel - 1, by omega⟩
    simpa [headerBlockRaw] using
      parseHeaderLines_badTerminal bad rest acc f hbne hb10 hb58
  | cons kv hs ih =>
    obtain ⟨f, rfl⟩ : ∃ f, fuel = f + 1 := ⟨fuel - 1, by omega⟩
    obtain ⟨hk10, hk58, hv10, hvcr⟩ := hwf kv (List.mem_cons_self _ _)
    rw [hbr_cons]
    rw [show (kv.1 ++ 58 :: (kv.2 ++ 10 :: headerBlockRaw hs)) ++
        (bad ++ 10 :: rest) =
      kv.1 ++ 58 :: (kv.2 ++ 10 :: (headerBlockRaw hs ++ (bad ++ 10 :: rest)))
      by simp]
    rw [parseHeaderLines_step kv.1 kv.2
      (headerBlockRaw hs ++ (bad ++ 10 :: rest)) acc f hk10 hk58 hv10 hvcr]
    rw [ih ((kv.1, kv.2) :: acc) f
      (fun x hx => hwf x (List.mem_cons_of_mem _ hx))
      (by simp at hfuel ⊢; omega)]

/-- The front end of `parse_frame_slice` on a buffer with a complete
command line and complete well-formed header section: what remains is
exactly the body phase. -/
theorem parse_front (cmd : List Nat) (hs : List (List Nat × List Nat))
    (tail : List Nat)
    (hcmd : cmd ≠ []) (hlf : (10 : Nat) ∉ cmd) (hcr : cmd.getLast? ≠ some 13)
    (hwf : ∀ kv ∈ hs, lineOk kv) :
    parse_frame_slice (mkFrameInput cmd hs tail) =
      parseBody cmd hs tail
        (cmd.length + 1 + ((headerBlockRaw hs).length + 1)) := by
  obtain ⟨a, cmd', rfl⟩ := List.exists_cons_of_ne_nil hcmd
  set X := headerBlockRaw hs ++ 10 :: tail with hX
  have ha : (a == (10 : Nat)) = false := by
    simp only [beq_eq_false_iff_ne]
    intro h
    exact hlf (h ▸ List.mem_cons_self a cmd')
  have h1 : List.takeWhile (fun b => b == (10 : Nat))
      ((a :: cmd') ++ 10 :: X) = [] := by
    show List.takeWhile (fun b => b == (10 : Nat))
      (a :: (cmd' ++ 10 :: X)) = []
    simp [List.takeWhile_cons, ha]
  have h2 : List.findIdx? (fun b => b == (10 : Nat))
      ((a :: cmd') ++ 10 :: X) = some (a :: cmd').length :=
    findIdxMarker X (fun x hx => by
      simp only [beq_eq_false_iff_ne]
      intro hx10
      exact hlf (hx10 ▸ hx)) (by simp)
  have h3 : ((a :: cmd') ++ 10 :: X).take (a :: cmd').length = a :: cmd' :=
    List.take_left' rfl
  have h5 : ((a :: cmd') ++ 10 :: X).drop ((a :: cmd').length + 1) = X := by
    rw [show (a :: cmd') ++ 10 :: X = ((a :: cmd') ++ [10]) ++ X by simp]
    exact List.drop_left' (by simp)
  have h6 : parseHeaderLines (X.length + 1) X [] =
      .ok (some (hs, (headerBlockRaw hs).length + 1)) := by
    rw [hX]
    rw [parseHeaderLines_complete hs tail [] _ hwf (by
      have := hbr_len_ge hs
      simp only [List.length_append, List.length_cons]
      omega)]
    rw [List.reverse_nil, List.nil_append]
  have h7 : X.drop ((headerBlockRaw hs).length + 1) = tail := by
    rw [hX, show headerBlockRaw hs ++ 10 :: tail =
      (headerBlockRaw hs ++ [10]) ++ tail by simp]
    exact List.drop_left' (by simp)
  unfold parse_frame_slice mkFrameInput
  rw [← hX, h1]
  simp only [List.length_nil, List.drop_zero]
  rw [h2]
  dsimp only
  rw [h3, stripCr_of_ne hcr, h5, h6]
  dsimp only
  rw [h7]
  congr 1
  omega

/-- Unfolding of `StompCodec::decode` on a buffer that does not begin
with LF. -/
theorem decode_cons_ne (b : Nat) (t : List Nat) (hb : ¬ b = 10) :
    decode (b :: t) =
      match parse_frame_slice (b :: t) with
      | .ok none => .ok none
      | .error e => .error e
      | .ok (some pf) =>
        if utf8Valid pf.cmd then
          match decodeHeaders pf.hdrs with
          | .error e => .error e
          | .ok hdrs =>
            .ok (some (.frame ⟨pf.cmd, hdrs, pf.body.getD []⟩, pf.consumed))
        else .error "invalid utf8 in command" := by
  rw [decode.eq_def]
  split
  · next heq =>
    rw [List.cons.injEq] at heq
    exact absurd heq.1 hb
  · rfl

/-! ## Escape, digit-string and content-length lookup facts -/

theorem escape_mem {s : List Nat} :
    ∀ x ∈ escape_header_value s, x ≠ 10 ∧ x ≠ 13 ∧ x ≠ 58 := by
  induction s with
  | nil =>
    intro x hx
    simp [escape_header_value] at hx
  | cons b t ih =>
    intro x hx
    rw [escape_header_value] at hx
    rcases List.mem_append.1 hx with hx | hx
    · unfold escapeByte at hx
      split_ifs at hx with h1 h2 h3 h4
      · simp at hx
        subst hx
        decide
      · simp at hx
        rcases hx with rfl | rfl <;> decide
      · simp at hx
        rcases hx with rfl | rfl <;> decide
      · simp at hx
        rcases hx with rfl | rfl <;> decide
      · simp at hx
        subst hx
        exact ⟨h3, h2, h4⟩
    · exact ih x hx

theorem lineOk_escaped (k v : List Nat) :
    lineOk (escape_header_value k, escape_header_value v) := by
  refine ⟨?_, ?_, ?_, ?_⟩
  · intro h
    exact (escape_mem _ h).1 rfl
  · intro h
    exact (escape_mem _ h).2.2 rfl
  · intro h
    exact (escape_mem _ h).1 rfl
  · intro h
    exact (escape_mem _ (List.mem_of_mem_getLast? h)).2.1 rfl

theorem specialByte_false {b : Nat} (h : specialByte b = false) :
    ¬ b = 92 ∧ ¬ b = 13 ∧ ¬ b = 10 ∧ ¬ b = 58 := by
  simp only [specialByte, Bool.or_eq_false_iff, beq_eq_false_iff_ne] at h
  exact ⟨h.1.1.1, h.1.1.2, h.1.2, h.2⟩

theorem noSpecials_escape_id {s : List Nat} (h : noSpecials s = true) :
    escape_header_value s = s := by
  induction s with
  | nil => rfl
  | cons b t ih =>
    rw [noSpecials, List.all_cons, Bool.and_eq_true] at h
    obtain ⟨hb, ht⟩ := h
    rw [Bool.not_eq_true'] at hb
    obtain ⟨h1, h2, h3, h4⟩ := specialByte_false hb
    rw [escape_header_value, ih ht]
    simp [escapeByte, h1, h2, h3, h4]

theorem escape_noSpecials_rev {s : List Nat}
    (h : noSpecials (escape_header_value s) = true) : noSpecials s = true := by
  induction s with
  | nil => rfl
  | cons b t ih =>
    by_cases hb : specialByte b = true
    · exfalso
      have h92 : (92 : Nat) ∈ escape_header_value (b :: t) := by
        rw [escape_header_value]
        refine List.mem_append_left _ ?_
        unfold escapeByte
        simp only [specialByte, Bool.or_eq_true, beq_iff_eq] at hb
        rcases hb with ((rfl | rfl) | rfl) | rfl <;> simp
      rw [noSpecials, List.all_eq_true] at h
      have := h 92 h92
      simp [specialByte] at this
    · rw [Bool.not_eq_true] at hb
      obtain ⟨h1, h2, h3, h4⟩ := specialByte_false hb
      have hesc : escape_header_value (b :: t) = b :: escape_header_value t := by
        rw [escape_header_value]
        simp [escapeByte, h1, h2, h3, h4]
      rw [hesc, noSpecials, List.all_cons, Bool.and_eq_true] at h
      rw [noSpecials, List.all_cons, Bool.and_eq_true]
      exact ⟨h.1, ih h.2⟩

theorem eqIC_cl_noSpecials {x : List Nat}
    (h : eqIgnoreAsciiCase x clKey = true) : noSpecials x = true := by
  unfold eqIgnoreAsciiCase at h
  rw [beq_iff_eq, show clKey.map lowerByte = clKey from by decide] at h
  rw [noSpecials, List.all_eq_true]
  intro b hb
  have hmem : lowerByte b ∈ clKey := h ▸ List.mem_map_of_mem lowerByte hb
  rw [Bool.not_eq_true']
  by_contra hspec
  rw [Bool.not_eq_false] at hspec
  simp only [specialByte, Bool.or_eq_true, beq_iff_eq] at hspec
  rcases hspec with ((rfl | rfl) | rfl) | rfl <;>
    exact absurd hmem (by decide)

theorem eqIC_escape_cl (k : List Nat) :
    eqIgnoreAsciiCase (escape_header_value k) clKey =
      eqIgnoreAsciiCase k clKey := by
  by_cases hn : noSpecials k = true
  · rw [noSpecials_escape_id hn]
  · have h1 : eqIgnoreAsciiCase k clKey = false := by
      by_contra h
      rw [Bool.not_eq_false] at h
      exact hn (eqIC_cl_noSpecials h)
    have h2 : eqIgnoreAsciiCase (escape_header_value k) clKey = false := by
      by_contra h
      rw [Bool.not_eq_false] at h
      exact hn (escape_noSpecials_rev (eqIC_cl_noSpecials h))
    rw [h1, h2]

/-- Unescaping inverts escaping on every byte string. -/
theorem unescape_escape (t : List Nat) :
    unescape_header_value (escape_header_value t) = some t := by
  induction t with
  | nil => rfl
  | cons b t ih =>
    by_cases h92 : b = 92
    · subst h92
      simp [escape_header_value, escapeByte, unescape_header_value, ih]
    · by_cases h13 : b = 13
      · subst h13
        simp [escape_header_value, escapeByte, unescape_header_value, ih]
      · by_cases h10 : b = 10
        · subst h10
          simp [escape_header_value, escapeByte, unescape_header_value, ih]
        · by_cases h58 : b = 58
          · subst h58
            simp [escape_header_value, escapeByte, unescape_header_value, ih]
          · rw [escape_header_value]
            simp only [escapeByte, h92, h13, h10, h58, if_false,
              List.singleton_append]
            rw [unescape_header_value.eq_def]
            simp only [h92, if_false]
            rw [ih]
            rfl

theorem natToDigitsAux_digits :
    ∀ fuel n, ∀ x ∈ natToDigitsAux fuel n, 48 ≤ x ∧ x ≤ 57 := by
  intro fuel
  induction fuel with
  | zero =>
    intro n x hx
    simp [natToDigitsAux] at hx
  | succ f ih =>
    intro n x hx
    rw [natToDigitsAux] at hx
    split at hx
    · simp at hx
      subst hx
      omega
    · rcases List.mem_append.1 hx with hx | hx
      · exact ih _ x hx
      · simp at hx
        subst hx
        omega

theorem natToDigits_digits {n : Nat} : ∀ x ∈ natToDigits n, 48 ≤ x ∧ x ≤ 57 :=
  natToDigitsAux_digits _ _

theorem natToDigits_ne_nil (n : Nat) : natToDigits n ≠ [] := by
  rw [natToDigits, natToDigitsAux]
  split <;> simp

theorem utf8Valid_of_ascii {s : List Nat} (h : ∀ x ∈ s, x ≤ 127) :
    utf8Valid s = true := by
  unfold utf8Valid
  induction s with
  | nil => rfl
  | cons b t ih =>
    rw [utf8Run, if_pos (h b (List.mem_cons_self b t))]
    exact ih (fun x hx => h x (List.mem_cons_of_mem _ hx))

theorem dropWhile_all_false {p : Nat → Bool} {l : List Nat}
    (h : ∀ x ∈ l, p x = false) : l.dropWhile p = l := by
  cases l with
  | nil => rfl
  | cons b t =>
    rw [List.dropWhile_cons]
    simp [h b (List.mem_cons_self b t)]

theorem trim_id {s : List Nat} (h : ∀ x ∈ s, isWsp x = false) :
    trimAscii s = s := by
  unfold trimAscii
  rw [dropWhile_all_false h,
    dropWhile_all_false (fun x hx => h x (List.mem_reverse.1 hx))]
  exact List.reverse_reverse s

theorem parseNatAux_append (xs ys : List Nat) (acc : Nat) :
    parseNatAux (xs ++ ys) acc =
      match parseNatAux xs acc with
      | some m => parseNatAux ys m
      | none => none := by
  induction xs generalizing acc with
  | nil => rfl
  | cons b t ih =>
    rw [List.cons_append]
    rw [parseNatAux, parseNatAux]
    cases hd : digitVal b with
    | some d =>
      dsimp only
      exact ih _
    | none => rfl

theorem digitVal_digit {n : Nat} (h : n < 10) : digitVal (48 + n) = some n := by
  unfold digitVal
  rw [if_pos (by omega)]
  congr 1
  omega

theorem parseNatAux_digitsAux : ∀ fuel n acc, n < fuel →
    parseNatAux (natToDigitsAux fuel n) acc =
      some (acc * 10 ^ (natToDigitsAux fuel n).length + n) := by
  intro fuel
  induction fuel with
  | zero =>
    intro n acc h
    exact absurd h (Nat.not_lt_zero n)
  | succ f ih =>
    intro n acc h
    rw [natToDigitsAux]
    split
    · next h10 =>
      rw [parseNatAux, digitVal_digit h10]
      dsimp only
      rw [parseNatAux]
      norm_num
    · next h10 =>
      rw [parseNatAux_append, ih (n / 10) acc (by omega)]
      dsimp only
      rw [parseNatAux, digitVal_digit (by omega)]
      dsimp only
      rw [parseNatAux]
      congr 1
      simp only [List.length_append, List.length_cons, List.length_nil]
      rw [pow_succ]
      have hdm : 10 * (n / 10) + n % 10 = n := Nat.div_add_mod n 10
      have hr : (acc * 10 ^ (natToDigitsAux f (n / 10)).length + n / 10) * 10 +
          n % 10 =
        acc * (10 ^ (natToDigitsAux f (n / 10)).length * 10) +
          (10 * (n / 10) + n % 10) := by ring
      rw [hr, hdm]

theorem parseUsize_digits {n : Nat} (h : n < 2 ^ 64) :
    parseUsize (natToDigits n) = some n := by
  have hne := natToDigits_ne_nil n
  have hhead : ¬ (natToDigits n).head? = some 43 := by
    cases hD : natToDigits n with
    | nil => simp
    | cons b t =>
      simp only [List.head?, Option.some.injEq]
      intro hc
      have hb := natToDigits_digits (n := n) b (by
        rw [hD]
        exact List.mem_cons_self b t)
      omega
  unfold parseUsize
  rw [if_neg hhead, if_neg hne]
  rw [show natToDigits n = natToDigitsAux (n + 1) n from rfl]
  rw [parseNatAux_digitsAux (n + 1) n 0 (by omega)]
  dsimp only
  simp only [Nat.zero_mul, Nat.zero_add]
  rw [if_pos h]

theorem natToDigits_noSpecials (n : Nat) : noSpecials (natToDigits n) = true := by
  rw [noSpecials, List.all_eq_true]
  intro b hb
  have := natToDigits_digits b hb
  rw [Bool.not_eq_true']
  simp only [specialByte, Bool.or_eq_false_iff, beq_eq_false_iff_ne]
  omega

theorem natToDigits_utf8 (n : Nat) : utf8Valid (natToDigits n) = true :=
  utf8Valid_of_ascii (fun x hx => by
    have := natToDigits_digits x hx
    omega)

theorem natToDigits_trim (n : Nat) : trimAscii (natToDigits n) = natToDigits n :=
  trim_id (fun x hx => by
    have := natToDigits_digits x hx
    simp only [isWsp, Bool.or_eq_false_iff, decide_eq_false_iff_not]
    omega)

theorem escapeHeaders_cons (kv : List Nat × List Nat)
    (t : List (List Nat × List Nat)) :
    escapeHeaders (kv :: t) =
      (escape_header_value kv.1, escape_header_value kv.2) :: escapeHeaders t :=
  rfl

/-- With no `content-length`-named header, the (escaped) header list
yields no content length. -/
theorem get_cl_escaped_none {hs : List (List Nat × List Nat)}
    (h : hasCl hs = false) :
    get_content_length (escapeHeaders hs) = .ok none := by
  induction hs with
  | nil => rfl
  | cons kv t ih =>
    rw [hasCl, List.any_cons, Bool.or_eq_false_iff] at h
    rw [escapeHeaders_cons, get_content_length, eqIC_escape_cl, h.1]
    simp only [Bool.false_eq_true, if_false]
    exact ih (by rw [hasCl]; exact h.2)

/-- The auto-inserted `content-length` at the end of a clean header list
is found and parses back to `n`. -/
theorem get_cl_escaped_auto {hs : List (List Nat × List Nat)} {n : Nat}
    (h : hasCl hs = false) (hn : n < 2 ^ 64) :
    get_content_length (escapeHeaders (hs ++ [(clKey, natToDigits n)])) =
      .ok (some n) := by
  induction hs with
  | nil =>
    rw [List.nil_append, escapeHeaders_cons]
    dsimp only
    rw [get_content_length]
    rw [noSpecials_escape_id (s := clKey) (by decide),
      noSpecials_escape_id (natToDigits_noSpecials n)]
    rw [if_pos (by decide), if_pos (natToDigits_utf8 n)]
    dsimp only
    rw [natToDigits_trim, if_neg (natToDigits_ne_nil n), parseUsize_digits hn]
  | cons kv t ih =>
    rw [hasCl, List.any_cons, Bool.or_eq_false_iff] at h
    rw [List.cons_append, escapeHeaders_cons, get_content_length,
      eqIC_escape_cl, h.1]
    simp only [Bool.false_eq_true, if_false]
    exact ih (by rw [hasCl]; exact h.2)

/-- When the first `content-length`-named header has a well-behaved value
`v`, the (escaped) header list yields exactly `v`'s parse. -/
theorem get_cl_escaped_found {hs : List (List Nat × List Nat)}
    {v : List Nat} {n : Nat}
    (hfind : findFirstCl hs = some v)
    (hns : noSpecials v = true) (hv8 : utf8Valid v = true)
    (hp : parseUsize (trimAscii v) = some n) :
    get_content_length (escapeHeaders hs) = .ok (some n) := by
  induction hs with
  | nil => simp [findFirstCl] at hfind
  | cons kv t ih =>
    by_cases hm : eqIgnoreAsciiCase kv.1 clKey = true
    · have hv : v = kv.2 := by
        unfold findFirstCl at hfind
        rw [List.find?_cons] at hfind
        rw [hm] at hfind
        simp at hfind
        exact hfind.symm
      subst hv
      rw [escapeHeaders_cons, get_content_length, eqIC_escape_cl,
        if_pos hm, noSpecials_escape_id hns, if_pos hv8]
      dsimp only
      have htr : trimAscii kv.2 ≠ [] := by
        intro h0
        rw [h0] at hp
        exact absurd hp (by simp [parseUsize])
      rw [if_neg htr, hp]
    · have hfind' : findFirstCl t = some v := by
        unfold findFirstCl at hfind ⊢
        rw [List.find?_cons] at hfind
        rw [Bool.not_eq_true] at hm
        rw [hm] at hfind
        exact hfind
      rw [escapeHeaders_cons, get_content_length, eqIC_escape_cl]
      rw [Bool.not_eq_true] at hm
      rw [hm]
      simp only [Bool.false_eq_true, if_false]
      exact ih hfind'

theorem findFirstCl_mem {hs : List (List Nat × List Nat)} {v : List Nat}
    (h : findFirstCl hs = some v) : ∃ k, (k, v) ∈ hs := by
  unfold findFirstCl at h
  cases hf : hs.find? (fun kv => eqIgnoreAsciiCase kv.1 clKey) with
  | none =>
    rw [hf] at h
    simp at h
  | some kv =>
    rw [hf] at h
    simp at h
    refine ⟨kv.1, ?_⟩
    have hm := List.mem_of_find?_eq_some hf
    rw [← h]
    simpa using hm

theorem hasCl_isSome {hs : List (List Nat × List Nat)}
    (h : hasCl hs = true) : ∃ v, findFirstCl hs = some v := by
  rw [hasCl, List.any_eq_true] at h
  obtain ⟨kv, hmem, hp⟩ := h
  unfold findFirstCl
  cases hf : hs.find? (fun kv => eqIgnoreAsciiCase kv.1 clKey) with
  | some kv' => exact ⟨kv'.2, rfl⟩
  | none =>
    rw [List.find?_eq_none] at hf
    exact absurd hp (by simpa using hf kv hmem)

theorem decodeHeader_escaped (k v : List Nat)
    (hk : utf8Valid k = true) (hv : utf8Valid v = true) :
    decodeHeader (escape_header_value k, escape_header_value v) =
      .ok (k, v) := by
  unfold decodeHeader
  rw [show (escape_header_value k, escape_header_value v).1 =
    escape_header_value k from rfl]
  rw [unescape_escape]
  dsimp only
  rw [if_pos hk, unescape_escape]
  dsimp only
  rw [if_pos hv]

theorem decodeHeaders_escaped (hs : List (List Nat × List Nat))
    (hh : ∀ kv ∈ hs, utf8Valid kv.1 = true ∧ utf8Valid kv.2 = true) :
    decodeHeaders (escapeHeaders hs) = .ok hs := by
  induction hs with
  | nil => rfl
  | cons kv t ih =>
    obtain ⟨hk, hv⟩ := hh kv (List.mem_cons_self kv t)
    rw [escapeHeaders_cons, decodeHeaders,
      decodeHeader_escaped kv.1 kv.2 hk hv]
    dsimp only
    rw [ih (fun x hx => hh x (List.mem_cons_of_mem _ hx))]

theorem parse_encodeFrame (f : Frame) (ext : List Nat)
    (hext : ext.head? ≠ some 10) (hf : frameOk f) :
    ∃ bo, parse_frame_slice (encodeFrame f ++ ext) =
        .ok (some ⟨f.command, escapeHeaders (encHeaders f), bo,
          (encodeFrame f).length⟩)
      ∧ bo.getD [] = f.body := by
  obtain ⟨hne, hlf, hcr, hc8, hh, hbl, hcl⟩ := hf
  have hhE : ∀ kv ∈ encHeaders f,
      utf8Valid kv.1 = true ∧ utf8Valid kv.2 = true := by
    intro kv hkv
    unfold encHeaders at hkv
    rcases List.mem_append.1 hkv with hkv | hkv
    · exact hh kv hkv
    · split at hkv
      · simp at hkv
        subst hkv
        exact ⟨show utf8Valid clKey = true by decide, natToDigits_utf8 _⟩
      · simp at hkv
  have hwf : ∀ kv ∈ escapeHeaders (encHeaders f), lineOk kv := by
    intro kv hkv
    unfold escapeHeaders at hkv
    obtain ⟨kv0, -, rfl⟩ := List.mem_map.1 hkv
    exact lineOk_escaped kv0.1 kv0.2
  have hin : encodeFrame f ++ ext =
      mkFrameInput f.command (escapeHeaders (encHeaders f))
        ((f.body ++ [0]) ++ ext) := by
    simp [encodeFrame, headerBlock, mkFrameInput, List.append_assoc]
  have hlenEnc : (encodeFrame f).length =
      f.command.length + 1 +
        ((headerBlockRaw (escapeHeaders (encHeaders f))).length + 1) +
        f.body.length + 1 := by
    simp only [encodeFrame, headerBlock, List.length_append, List.length_cons,
      List.length_nil]
    omega
  have hrem : (f.body ++ [0]) ++ ext = f.body ++ 0 :: ext := by simp
  have hdropNul : (f.body ++ 0 :: ext).drop (f.body.length + 1) = ext := by
    rw [show f.body ++ 0 :: ext = (f.body ++ [0]) ++ ext by simp]
    exact List.drop_left' (by simp)
  rw [hin, parse_front f.command _ _ hne hlf hcr hwf]
  -- three content-length scenarios
  by_cases hhas : hasCl f.headers = true
  · -- caller-supplied content-length
    have hHeq : encHeaders f = f.headers := by
      unfold encHeaders
      rw [if_neg (by simp [hhas])]
      exact List.append_nil _
    obtain ⟨v, hfind⟩ := hasCl_isSome hhas
    have hclv : noSpecials v = true ∧
        parseUsize (trimAscii v) = some f.body.length := by
      unfold clOk at hcl
      rw [hfind] at hcl
      exact hcl
    obtain ⟨k0, hk0⟩ := findFirstCl_mem hfind
    have hGCL : get_content_length (escapeHeaders (encHeaders f)) =
        .ok (some f.body.length) := by
      rw [hHeq]
      exact get_cl_escaped_found hfind hclv.1 ((hh _ hk0).2) hclv.2
    unfold parseBody
    rw [hGCL]
    dsimp only
    rw [hrem]
    rw [if_neg (by simp only [List.length_append, List.length_cons]; omega)]
    rw [List.take_left' rfl, List.drop_left' rfl]
    rw [show ((0 : Nat) :: ext).head? = some 0 from rfl]
    dsimp only
    rw [hdropNul, if_neg hext]
    refine ⟨some f.body, ?_, rfl⟩
    rw [hlenEnc]
  · by_cases hdirty : f.body.contains 0 = true ∨ ¬ utf8Valid f.body = true
    · -- auto-inserted content-length
      have hHeq : encHeaders f =
          f.headers ++ [(clKey, natToDigits f.body.length)] := by
        unfold encHeaders
        rw [if_pos ⟨hhas, hdirty⟩]
      have hGCL : get_content_length (escapeHeaders (encHeaders f)) =
          .ok (some f.body.length) := by
        rw [hHeq]
        exact get_cl_escaped_auto (Bool.not_eq_true _ ▸ hhas) hbl
      unfold parseBody
      rw [hGCL]
      dsimp only
      rw [hrem]
      rw [if_neg (by simp only [List.length_append, List.length_cons]; omega)]
      rw [List.take_left' rfl, List.drop_left' rfl]
      rw [show ((0 : Nat) :: ext).head? = some 0 from rfl]
      dsimp only
      rw [hdropNul, if_neg hext]
      refine ⟨some f.body, ?_, rfl⟩
      rw [hlenEnc]
    · -- clean UTF-8 body without NUL: bare NUL-terminated framing
      have hHeq : encHeaders f = f.headers := by
        unfold encHeaders
        rw [if_neg (by
          intro hc
          exact hdirty hc.2)]
        exact List.append_nil _
      have hGCL : get_content_length (escapeHeaders (encHeaders f)) =
          .ok none := by
        rw [hHeq]
        exact get_cl_escaped_none (Bool.not_eq_true _ ▸ hhas)
      have h0 : (0 : Nat) ∉ f.body := by
        intro hm
        exact hdirty (Or.inl (by simpa using hm))
      unfold parseBody
      rw [hGCL]
      dsimp only
      rw [hrem]
      rw [findIdxMarker ext (fun x hx => by
        simp only [beq_eq_false_iff_ne]
        intro hx0
        exact h0 (hx0 ▸ hx)) (by simp)]
      dsimp only
      rw [List.take_left' rfl, hdropNul, if_neg hext]
      refine ⟨if f.body = [] then none else some f.body, ?_, by
        split <;> simp_all⟩
      rw [hlenEnc]

/-- Decoding the encoding of a valid frame, with any non-LF-headed bytes
following in the buffer, yields exactly that frame (headers being the
encoder's, i.e. with the auto-inserted `content-length` when one was
added) and consumes exactly the encoding. -/
theorem decode_encodeFrame (f : Frame) (ext : List Nat)
    (hext : ext.head? ≠ some 10) (hf : frameOk f) :
    decode (encodeFrame f ++ ext) =
      .ok (some (.frame ⟨f.command, encHeaders f, f.body⟩,
        (encodeFrame f).length)) := by
  obtain ⟨bo, hp, hbo⟩ := parse_encodeFrame f ext hext hf
  obtain ⟨hne, hlf, -, hc8, hh, -, -⟩ := hf
  have hhE : ∀ kv ∈ encHeaders f,
      utf8Valid kv.1 = true ∧ utf8Valid kv.2 = true := by
    intro kv hkv
    unfold encHeaders at hkv
    rcases List.mem_append.1 hkv with hkv | hkv
    · exact hh kv hkv
    · split at hkv
      · simp at hkv
        subst hkv
        exact ⟨show utf8Valid clKey = true by decide, natToDigits_utf8 _⟩
      · simp at hkv
  obtain ⟨a, cmd', hcmd⟩ := List.exists_cons_of_ne_nil hne
  have hhead : ¬ a = 10 := by
    intro h
    exact hlf (h ▸ hcmd ▸ List.mem_cons_self a cmd')
  have hshape : encodeFrame f ++ ext =
      a :: (cmd' ++ 10 :: (headerBlock (encHeaders f) ++
        10 :: (f.body ++ [0])) ++ ext) := by
    rw [show encodeFrame f = f.command ++ 10 :: (headerBlock (encHeaders f) ++
      10 :: (f.body ++ [0])) from rfl, hcmd]
    simp
  rw [hshape, decode_cons_ne _ _ hhead, ← hshape, hp]
  dsimp only
  rw [if_pos hc8, decodeHeaders_escaped _ hhE]
  dsimp only
  rw [hbo]

/-! ### Partial buffers: no item is emitted from an incomplete frame -/

theorem head?_mem {x : Nat} {l : List Nat} (h : l.head? = some x) : x ∈ l := by
  cases l with
  | nil => exact Option.noConfusion h
  | cons b t =>
    simp only [List.head?_cons, Option.some.injEq] at h
    subst h
    exact List.mem_cons_self _ _

theorem cmd_append_head_ne {cmd z : List Nat} (hne : cmd ≠ [])
    (hlf : (10 : Nat) ∉ cmd) : (cmd ++ z).head? ≠ some 10 := by
  obtain ⟨a, cmd', rfl⟩ := List.exists_cons_of_ne_nil hne
  simp only [List.cons_append, List.head?_cons, Option.some.injEq]
  intro h
  apply hlf
  simp only [Option.some.injEq] at h
  rw [h]
  exact List.mem_cons_self _ _

theorem parseHeaderLines_emptyBuf (fuel : Nat)
    (acc : List (List Nat × List Nat)) :
    parseHeaderLines fuel [] acc = .ok none := by
  cases fuel <;> rfl

/-- A prefix of a well-formed raw header block, cut anywhere before the
blank separator line, makes the header loop ask for more bytes. -/
theorem parseHeaderLines_takePartial
    (hs : List (List Nat × List Nat)) (j : Nat)
    (acc : List (List Nat × List Nat)) (fuel : Nat)
    (hwf : ∀ kv ∈ hs, lineOk kv) (hj : j ≤ (headerBlockRaw hs).length) :
    parseHeaderLines fuel ((headerBlockRaw hs).take j) acc = .ok none := by
  induction hs generalizing j acc fuel with
  | nil =>
    rw [show headerBlockRaw [] = [] from rfl, List.take_nil]
    exact parseHeaderLines_emptyBuf fuel acc
  | cons kv t ih =>
    obtain ⟨hk10, hk58, hv10, hvcr⟩ := hwf kv (List.mem_cons_self _ _)
    by_cases hcut : j ≤ kv.1.length + 1 + kv.2.length
    · -- the cut lands inside the first line, before its LF
      apply parseHeaderLines_noLf
      intro hmem
      have hpref : (headerBlockRaw (kv :: t)).take j =
          (kv.1 ++ 58 :: kv.2).take j := by
        rw [hbr_cons, show kv.1 ++ 58 :: (kv.2 ++ 10 :: headerBlockRaw t) =
          (kv.1 ++ 58 :: kv.2) ++ 10 :: headerBlockRaw t by simp]
        exact List.take_append_of_le_length (by
          simp only [List.length_append, List.length_cons]
          omega)
      rw [hpref] at hmem
      rcases List.mem_append.1 (List.mem_of_mem_take hmem) with h | h
      · exact hk10 h
      · rcases List.mem_cons.1 h with h | h
        · exact absurd h (by decide)
        · exact hv10 h
    · -- the first line is complete inside the prefix
      rw [hbr_cons] at hj
      simp only [List.length_append, List.length_cons] at hj
      have hlen1 : ((kv.1 ++ 58 :: kv.2) ++ [10]).length =
          kv.1.length + 1 + kv.2.length + 1 := by
        simp only [List.length_append, List.length_cons, List.length_nil]
        omega
      have hline : (headerBlockRaw (kv :: t)).take j =
          kv.1 ++ 58 :: (kv.2 ++ 10 ::
            (headerBlockRaw t).take (j - (kv.1.length + 1 + kv.2.length + 1))) := by
        rw [hbr_cons, show kv.1 ++ 58 :: (kv.2 ++ 10 :: headerBlockRaw t) =
          ((kv.1 ++ 58 :: kv.2) ++ [10]) ++ headerBlockRaw t by simp]
        rw [List.take_append_eq_append_take, hlen1,
          List.take_of_length_le (by rw [hlen1]; omega)]
        simp
      cases fuel with
      | zero => rfl
      | succ f =>
        rw [hline, parseHeaderLines_step kv.1 kv.2 _ acc f hk10 hk58 hv10 hvcr,
          ih _ _ _ (fun x hx => hwf x (List.mem_cons_of_mem _ hx)) (by omega)]

/-- A buffer containing neither LF nor NUL makes the parser ask for more
bytes. -/
theorem parse_noLfNoNul (p : List Nat) (h10 : (10 : Nat) ∉ p)
    (h0 : (0 : Nat) ∉ p) : parse_frame_slice p = .ok none := by
  have hTW : p.takeWhile (fun b => b == (10 : Nat)) = [] := by
    cases p with
    | nil => rfl
    | cons b t =>
      have hb : (b == (10 : Nat)) = false := by
        simp only [beq_eq_false_iff_ne]
        intro h
        exact h10 (h ▸ List.mem_cons_self b t)
      simp [List.takeWhile_cons, hb]
  unfold parse_frame_slice
  rw [hTW]
  simp only [List.length_nil, List.drop_zero]
  rw [List.findIdx?_eq_none_iff.2 (fun x hx => by
    simp only [beq_eq_false_iff_ne]
    intro h
    exact h10 (h ▸ hx))]
  rw [List.findIdx?_eq_none_iff.2 (fun x hx => by
    simp only [beq_eq_false_iff_ne]
    intro h
    exact h0 (h ▸ hx))]

/-- When the parser asks for more bytes on a buffer that does not begin
with LF, so does `decode`. -/
theorem decode_of_parse_none {p : List Nat}
    (hparse : parse_frame_slice p = .ok none) (hhead : p.head? ≠ some 10) :
    decode p = .ok none := by
  cases p with
  | nil => rfl
  | cons b t =>
    have hb : ¬ b = 10 := by
      intro h
      apply hhead
      rw [h]
      rfl
    rw [decode_cons_ne b t hb, hparse]

theorem decode_noLfNoNul (p : List Nat) (h10 : (10 : Nat) ∉ p)
    (h0 : (0 : Nat) ∉ p) : decode p = .ok none := by
  apply decode_of_parse_none (parse_noLfNoNul p h10 h0)
  intro hhd
  exact h10 (head?_mem hhd)

/-- A buffer with a complete command line whose header section is cut
before its blank separator line: the parser asks for more bytes. -/
theorem parse_frontPartialHeaders (cmd : List Nat)
    (hs : List (List Nat × List Nat)) (j : Nat)
    (hcmd : cmd ≠ []) (hlf : (10 : Nat) ∉ cmd)
    (hwf : ∀ kv ∈ hs, lineOk kv) (hj : j ≤ (headerBlockRaw hs).length) :
    parse_frame_slice (cmd ++ 10 :: (headerBlockRaw hs).take j) = .ok none := by
  obtain ⟨a, cmd', rfl⟩ := List.exists_cons_of_ne_nil hcmd
  set X := (headerBlockRaw hs).take j with hX
  have ha : (a == (10 : Nat)) = false := by
    simp only [beq_eq_false_iff_ne]
    intro h
    exact hlf (h ▸ List.mem_cons_self a cmd')
  have h1 : List.takeWhile (fun b => b == (10 : Nat))
      ((a :: cmd') ++ 10 :: X) = [] := by
    show List.takeWhile (fun b => b == (10 : Nat))
      (a :: (cmd' ++ 10 :: X)) = []
    simp [List.takeWhile_cons, ha]
  have h2 : List.findIdx? (fun b => b == (10 : Nat))
      ((a :: cmd') ++ 10 :: X) = some (a :: cmd').length :=
    findIdxMarker X (fun x hx => by
      simp only [beq_eq_false_iff_ne]
      intro hx10
      exact hlf (hx10 ▸ hx)) (by simp)
  have h5 : ((a :: cmd') ++ 10 :: X).drop ((a :: cmd').length + 1) = X := by
    rw [show (a :: cmd') ++ 10 :: X = ((a :: cmd') ++ [10]) ++ X by simp]
    exact List.drop_left' (by simp)
  have h6 : parseHeaderLines (X.length + 1) X [] = .ok none := by
    rw [hX]
    exact parseHeaderLines_takePartial hs j [] _ hwf hj
  unfold parse_frame_slice
  rw [h1]
  simp only [List.length_nil, List.drop_zero]
  rw [h2]
  dsimp only
  rw [h5, h6]

/-- Any proper prefix of a valid frame's encoding (the command also
being NUL-free) makes `decode` ask for more bytes: the codec never emits
anything from a partially buffered frame. -/
theorem decode_encodeFrame_take (f : Frame) (hf : frameOk f)
    (h0c : (0 : Nat) ∉ f.command) (k : Nat)
    (hk : k < (encodeFrame f).length) :
    decode ((encodeFrame f).take k) = .ok none := by
  obtain ⟨hne, hlf, hcr, hc8, hh, hbl, hcl⟩ := hf
  have hwf : ∀ kv ∈ escapeHeaders (encHeaders f), lineOk kv := by
    intro kv hkv
    unfold escapeHeaders at hkv
    obtain ⟨kv0, -, rfl⟩ := List.mem_map.1 hkv
    exact lineOk_escaped kv0.1 kv0.2
  set HB := headerBlock (encHeaders f) with hHB
  have hHBraw : HB = headerBlockRaw (escapeHeaders (encHeaders f)) := rfl
  have hEnc : encodeFrame f =
      f.command ++ 10 :: (HB ++ 10 :: (f.body ++ [0])) := rfl
  have hlen : (encodeFrame f).length =
      f.command.length + 1 + HB.length + 1 + f.body.length + 1 := by
    rw [hEnc]
    simp only [List.length_append, List.length_cons, List.length_nil]
    omega
  rw [hlen] at hk
  by_cases hk1 : k ≤ f.command.length
  · -- inside the command line: neither LF nor NUL buffered yet
    have htake : (encodeFrame f).take k = f.command.take k := by
      rw [hEnc]
      exact List.take_append_of_le_length hk1
    rw [htake]
    exact decode_noLfNoNul _
      (fun hm => hlf (List.mem_of_mem_take hm))
      (fun hm => h0c (List.mem_of_mem_take hm))
  · by_cases hk2 : k ≤ f.command.length + 1 + HB.length
    · -- inside the header section, before the blank separator line
      have hlenc : (f.command ++ [10]).length = f.command.length + 1 := by
        simp
      have htake : (encodeFrame f).take k =
          f.command ++ 10 :: HB.take (k - (f.command.length + 1)) := by
        rw [hEnc, show f.command ++ 10 :: (HB ++ 10 :: (f.body ++ [0])) =
          (f.command ++ [10]) ++ (HB ++ 10 :: (f.body ++ [0])) by simp]
        rw [List.take_append_eq_append_take, hlenc,
          List.take_of_length_le (by rw [hlenc]; omega),
          List.take_append_of_le_length (by omega)]
        simp
      rw [htake, hHBraw]
      exact decode_of_parse_none
        (parse_frontPartialHeaders f.command (escapeHeaders (encHeaders f)) _
          hne hlf hwf (by rw [← hHBraw]; omega))
        (cmd_append_head_ne hne hlf)
    · -- inside the body region
      have hlen2 : ((f.command ++ [10]) ++ (HB ++ [10])).length =
          f.command.length + 1 + HB.length + 1 := by
        simp only [List.length_append, List.length_cons, List.length_nil]
        omega
      have htake : (encodeFrame f).take k =
          mkFrameInput f.command (escapeHeaders (encHeaders f))
            (f.body.take (k - (f.command.length + 1 + HB.length + 1))) := by
        rw [hEnc, show f.command ++ 10 :: (HB ++ 10 :: (f.body ++ [0])) =
          ((f.command ++ [10]) ++ (HB ++ [10])) ++ (f.body ++ [0]) by simp]
        rw [List.take_append_eq_append_take, hlen2,
          List.take_of_length_le (by rw [hlen2]; omega),
          List.take_append_of_le_length (by omega)]
        unfold mkFrameInput
        rw [← hHBraw]
        simp
      rw [htake]
      refine decode_of_parse_none ?_ (by
        unfold mkFrameInput
        exact cmd_append_head_ne hne hlf)
      rw [parse_front f.command _ _ hne hlf hcr hwf]
      unfold parseBody
      by_cases hhas : hasCl f.headers = true
      · -- caller-supplied content-length: fewer than `clen + 1` bytes
        have hHeq : encHeaders f = f.headers := by
          unfold encHeaders
          rw [if_neg (by simp [hhas])]
          exact List.append_nil _
        obtain ⟨v, hfind⟩ := hasCl_isSome hhas
        have hclv : noSpecials v = true ∧
            parseUsize (trimAscii v) = some f.body.length := by
          unfold clOk at hcl
          rw [hfind] at hcl
          exact hcl
        obtain ⟨k0, hk0⟩ := findFirstCl_mem hfind
        have hGCL : get_content_length (escapeHeaders (encHeaders f)) =
            .ok (some f.body.length) := by
          rw [hHeq]
          exact get_cl_escaped_found hfind hclv.1 ((hh _ hk0).2) hclv.2
        rw [hGCL]
        dsimp only
        rw [if_pos (by rw [List.length_take]; omega)]
      · by_cases hdirty : f.body.contains 0 = true ∨ ¬ utf8Valid f.body = true
        · -- auto-inserted content-length: same short-body signal
          have hGCL : get_content_length (escapeHeaders (encHeaders f)) =
              .ok (some f.body.length) := by
            rw [show encHeaders f =
                f.headers ++ [(clKey, natToDigits f.body.length)] by
              unfold encHeaders
              rw [if_pos ⟨hhas, hdirty⟩]]
            exact get_cl_escaped_auto (Bool.not_eq_true _ ▸ hhas) hbl
          rw [hGCL]
          dsimp only
          rw [if_pos (by rw [List.length_take]; omega)]
        · -- NUL-framed: the clean body holds no NUL, none buffered yet
          have hGCL : get_content_length (escapeHeaders (encHeaders f)) =
              .ok none := by
            rw [show encHeaders f = f.headers by
              unfold encHeaders
              rw [if_neg (fun hcon => hdirty hcon.2)]
              exact List.append_nil _]
            exact get_cl_escaped_none (Bool.not_eq_true _ ▸ hhas)
          have h0b : (0 : Nat) ∉ f.body := by
            intro hmem
            exact hdirty (Or.inl (by simpa using hmem))
          rw [hGCL]
          dsimp only
          rw [List.findIdx?_eq_none_iff.2 (fun x hx => by
            simp only [beq_eq_false_iff_ne]
            intro hx0
            exact h0b (hx0 ▸ List.mem_of_mem_take hx))]

/-! ### The framed read loop over a valid stream -/

theorem decode_nil : decode [] = .ok none := rfl

theorem encodeItems_nil : encodeItems [] = [] := rfl

theorem encodeItems_cons (i : StompItem) (t : List StompItem) :
    encodeItems (i :: t) = encodeItem i ++ encodeItems t := by
  simp [encodeItems]

theorem encodeItem_length_pos (i : StompItem) : 0 < (encodeItem i).length := by
  cases i with
  | heartbeat => decide
  | frame f =>
    simp only [encodeItem, encodeFrame, List.length_append, List.length_cons]
    omega

theorem drain_stuck {buf : List Nat} (fuel : Nat)
    (h : decode buf = .ok none) : drain fuel buf = ([], buf, false) := by
  cases fuel with
  | zero => rfl
  | succ f =>
    rw [drain, h]

theorem drain_consume {buf : List Nat} {it : StompItem} {n : Nat} (fuel : Nat)
    (h : decode buf = .ok (some (it, n))) :
    drain (fuel + 1) buf =
      (it :: (drain fuel (buf.drop n)).1,
        (drain fuel (buf.drop n)).2.1, (drain fuel (buf.drop n)).2.2) := by
  rw [drain, h]

/-- A buffer strictly shorter than the first item's encoding, while a
prefix of the stream, never yields an item. -/
theorem decode_prefix_item (i : StompItem) (t : List StompItem)
    (b rest : List Nat) (hv : validSeq (i :: t))
    (hb : b ++ rest = encodeItems (i :: t))
    (hlen : b.length < (encodeItem i).length) : decode b = .ok none := by
  cases i with
  | heartbeat =>
    have hb0 : b = [] := by
      simp only [encodeItem, List.length_cons, List.length_nil] at hlen
      exact List.length_eq_zero.1 (by omega)
    rw [hb0]
    exact decode_nil
  | frame f =>
    have hf : frameOk f := hv.1
    have h0 : (0 : Nat) ∉ f.command := hv.2.1
    have hbtake : b = (encodeFrame f).take b.length := by
      conv_lhs => rw [show b = (b ++ rest).take b.length from
        (List.take_left' rfl).symm]
      rw [hb, encodeItems_cons]
      exact List.take_append_of_le_length (Nat.le_of_lt hlen)
    conv_lhs => rw [hbtake]
    exact decode_encodeFrame_take f hf h0 b.length hlen

/-- The inner `Framed` loop on a buffered prefix of a valid stream: it
emits the decoded items of the complete encodings it holds and keeps the
leftover bytes, which still fall short of the next item's encoding. -/
theorem drain_structured :
    ∀ (fuel : Nat) (L : List StompItem) (b rest : List Nat),
    validSeq L → b ++ rest = encodeItems L → b.length < fuel →
    ∃ L₁ L₂ p, L = L₁ ++ L₂ ∧ b = encodeItems L₁ ++ p ∧
      validSeq L₂ ∧ properPrefixAt p L₂ ∧ p ++ rest = encodeItems L₂ ∧
      drain fuel b = (L₁.map decItem, p, false) := by
  intro fuel
  induction fuel with
  | zero =>
    intro L b rest hv hb hlen
    exact absurd hlen (Nat.not_lt_zero _)
  | succ F ih =>
    intro L b rest hv hb hlen
    cases L with
    | nil =>
      rw [encodeItems_nil] at hb
      obtain ⟨rfl, rfl⟩ := List.append_eq_nil.1 hb
      refine ⟨[], [], [], rfl, rfl, trivial, rfl, rfl, ?_⟩
      rw [drain_stuck _ decode_nil]
      rfl
    | cons i t =>
      by_cases hshort : b.length < (encodeItem i).length
      · exact ⟨[], i :: t, b, rfl, (List.nil_append b).symm, hv, hshort, hb,
          by rw [drain_stuck _ (decode_prefix_item i t b rest hv hb hshort)]; rfl⟩
      · push_neg at hshort
        have hbtk : b.take (encodeItem i).length = encodeItem i := by
          have h1 : (b ++ rest).take (encodeItem i).length =
              b.take (encodeItem i).length :=
            List.take_append_of_le_length hshort
          rw [hb, encodeItems_cons, List.take_left' rfl] at h1
          exact h1.symm
        have hbsplit : b = encodeItem i ++ b.drop (encodeItem i).length := by
          conv_lhs => rw [← List.take_append_drop (encodeItem i).length b]
          rw [hbtk]
        have hrest' : b.drop (encodeItem i).length ++ rest = encodeItems t := by
          have h2 : encodeItem i ++ (b.drop (encodeItem i).length ++ rest) =
              encodeItem i ++ encodeItems t := by
            rw [← List.append_assoc, ← hbsplit, hb, encodeItems_cons]
          exact List.append_cancel_left h2
        cases i with
        | heartbeat =>
          have hbeq : b = 10 :: b.drop 1 := by
            simpa [encodeItem] using hbsplit
          have hb1 : 1 ≤ b.length := by
            simpa [encodeItem] using hshort
          have hdec : decode b = .ok (some (.heartbeat, 1)) := by
            rw [hbeq]
            rfl
          have hrest'' : b.drop 1 ++ rest = encodeItems t := by
            simpa [encodeItem] using hrest'
          obtain ⟨L₁, L₂, p, hsp, hbp, hv₂, hpp, hpr, hdr⟩ :=
            ih t (b.drop 1) rest hv hrest''
              (by simp only [List.length_drop]; omega)
          refine ⟨.heartbeat :: L₁, L₂, p, by rw [hsp]; rfl, ?_, hv₂, hpp,
            hpr, ?_⟩
          · conv_lhs => rw [hbeq]
            rw [hbp, encodeItems_cons]
            simp [encodeItem]
          · rw [drain_consume F hdec, hdr]
            simp [decItem]
        | frame f =>
          have hf : frameOk f := hv.1
          have h0c : (0 : Nat) ∉ f.command := hv.2.1
          have hnhb : headNotHb t := hv.2.2.1
          have hvt : validSeq t := hv.2.2.2
          have hbsplit' : b = encodeFrame f ++ b.drop (encodeFrame f).length :=
            hbsplit
          have hrest'' : b.drop (encodeFrame f).length ++ rest =
              encodeItems t := hrest'
          have hext : (b.drop (encodeFrame f).length).head? ≠ some 10 := by
            intro hhd
            rcases hb2 : b.drop (encodeFrame f).length with _ | ⟨x, xs⟩
            · rw [hb2] at hhd
              exact Option.noConfusion hhd
            · rw [hb2] at hhd hrest''
              have hx10 : x = 10 := by simpa using hhd
              cases t with
              | nil => simp [encodeItems_nil] at hrest''
              | cons j t' =>
                cases j with
                | heartbeat => exact hnhb
                | frame g =>
                  have hgok : frameOk g := hvt.1
                  obtain ⟨a, gcmd', hga⟩ := List.exists_cons_of_ne_nil hgok.1
                  have hxa : x = a := by
                    rw [encodeItems_cons, show encodeItem (.frame g) =
                      g.command ++ 10 :: (headerBlock (encHeaders g) ++
                        10 :: (g.body ++ [0])) from rfl, hga] at hrest''
                    simpa using congrArg List.head? hrest''
                  apply hgok.2.1
                  rw [hga, ← hxa, hx10]
                  exact List.mem_cons_self _ _
          have hdec : decode b = .ok (some (.frame ⟨f.command, encHeaders f,
              f.body⟩, (encodeFrame f).length)) := by
            conv_lhs => rw [hbsplit']
            exact decode_encodeFrame f _ hext hf
          have hpos : 0 < (encodeFrame f).length := encodeItem_length_pos
            (.frame f)
          have hshort2 : (encodeFrame f).length ≤ b.length := hshort
          obtain ⟨L₁, L₂, p, hsp, hbp, hv₂, hpp, hpr, hdr⟩ :=
            ih t (b.drop (encodeFrame f).length) rest hvt hrest''
              (by simp only [List.length_drop]; omega)
          refine ⟨.frame f :: L₁, L₂, p, by rw [hsp]; rfl, ?_, hv₂, hpp,
            hpr, ?_⟩
          · conv_lhs => rw [hbsplit']
            rw [hbp, encodeItems_cons,
              show encodeItem (.frame f) = encodeFrame f from rfl,
              List.append_assoc]
          · rw [drain_consume F hdec, hdr]
            simp [decItem]

/-- The outer `Framed` loop: feeding any chunk split of the encoding of
a valid item sequence onto a drained partial buffer decodes all items. -/
theorem feedGo_structured :
    ∀ (chunks : List (List Nat)) (L : List StompItem) (p : List Nat),
    validSeq L → properPrefixAt p L →
    p ++ chunks.flatMap id = encodeItems L →
    feedGo chunks p = (L.map decItem, [], false) := by
  intro chunks
  induction chunks with
  | nil =>
    intro L p hv hpp hc
    simp only [List.flatMap_nil, List.append_nil] at hc
    cases L with
    | nil =>
      have hp0 : p = [] := hpp
      subst hp0
      rfl
    | cons i t =>
      exfalso
      have hl := congrArg List.length hc
      rw [encodeItems_cons] at hl
      simp only [List.length_append] at hl
      have hpl : p.length < (encodeItem i).length := hpp
      omega
  | cons c cs ih =>
    intro L p hv hpp hc
    have hc' : (p ++ c) ++ cs.flatMap id = encodeItems L := by
      rw [List.append_assoc]
      simpa [List.flatMap_cons] using hc
    obtain ⟨L₁, L₂, p', hLsplit, hbsplit, hv₂, hpp', hrest, hdrain⟩ :=
      drain_structured ((p ++ c).length + 1) L (p ++ c) (cs.flatMap id)
        hv hc' (by omega)
    simp only [feedGo]
    rw [hdrain]
    dsimp only
    simp only [Bool.false_eq_true, if_false]
    rw [ih L₂ p' hv₂ hpp' hrest]
    dsimp only
    rw [hLsplit, List.map_append]

/-- **C2, counterexample.** `c2Stream` is the encoding of a SEND frame
followed by one heartbeat pulse.  Fed in a single call, the decoder
consumes the heartbeat's LF as the frame's optional trailing LF and
emits one item; fed one byte at a time, that LF arrives in an empty
buffer and is emitted as a heartbeat.  The two chunkings produce
different item sequences, so the claim fails for arbitrary encoded
streams. -/
theorem c2_chunking_cex :
    c2Stream = encodeItems c2Items ∧
      feed [c2Stream] ≠ feed (c2Stream.map (fun b => [b])) :=
  ⟨rfl, by decide⟩

/-- **C2, amended.** For every item sequence in which each frame is
`frameOk` with a NUL-free command and no heartbeat pulse directly
follows a frame (`validSeq`), feeding the concatenated encoding to a
fresh decoder in ANY chunk decomposition — one byte at a time, in
fixed-size windows, or all in a single call — produces exactly the
decoded items in order (each frame carrying the headers the encoder
wrote), with an empty final buffer and no error; in particular all
chunkings agree, with no item lost or duplicated. -/
theorem c2_chunk_independence (L : List StompItem)
    (chunks : List (List Nat)) (hL : validSeq L)
    (hc : chunks.flatMap id = encodeItems L) :
    feed chunks = (L.map decItem, [], false) := by
  unfold feed
  refine feedGo_structured chunks L [] hL ?_ (by simpa using hc)
  cases L with
  | nil => rfl
  | cons i t => exact encodeItem_length_pos i

/-- Witness for the amended C2: a heartbeat followed by a SEND frame,
fed one byte at a time, decodes to exactly those two items. -/
theorem c2_chunk_independence_witness :
    validSeq c2WitItems ∧
      c2WitChunks.flatMap id = encodeItems c2WitItems ∧
      feed c2WitChunks = (c2WitItems.map decItem, [], false) :=
  ⟨by decide, by decide,
    c2_chunk_independence c2WitItems c2WitChunks (by decide) (by decide)⟩

/-- **C1, counterexample.** The claim admits every frame with valid
command and header texts and *arbitrary* body bytes.  `c1Mismatch` has a
non-empty LF-free UTF-8 command and UTF-8 header key/value, yet decoding
its encoding yields no item at all: the caller-supplied
`content-length: 5` disagrees with the 2-byte body `hi`, so the decoder
reports `.ok none` (waiting for the three missing announced bytes)
instead of one frame equal to the input. -/
theorem c1_roundtrip_cex :
    c1Mismatch.command ≠ [] ∧ (10 : Nat) ∉ c1Mismatch.command ∧
      utf8Valid c1Mismatch.command = true ∧
      (∀ kv ∈ c1Mismatch.headers,
        utf8Valid kv.1 = true ∧ utf8Valid kv.2 = true) ∧
      decode (encodeFrame c1Mismatch) = .ok none := by
  decide

/-- **C1, amended.** For every frame `f` whose command is non-empty,
LF-free, not CR-terminated and UTF-8, whose header texts are UTF-8,
whose body is shorter than `usize::MAX`, and whose caller-supplied
`content-length` (if it has one) is escape-invariant and parses to the
body's byte length (`frameOk f`), decoding the encoding of `f` yields
exactly one item — a frame equal to `f` after normalization of the
auto-inserted `content-length` — consuming the entire encoding.  The
decoded headers are exactly `f`'s own, except when `f` had no
`content-length` and its body contains a NUL or is not UTF-8, in which
case the encoder's `content-length: ⟨body length⟩` entry is appended. -/
theorem c1_encode_decode_roundtrip (f : Frame) (hf : frameOk f) :
    decode (encodeFrame f) =
      .ok (some (.frame ⟨f.command, encHeaders f, f.body⟩,
        (encodeFrame f).length))
    ∧ (encHeaders f = f.headers ∨
        (hasCl f.headers = false ∧
          encHeaders f = f.headers ++ [(clKey, natToDigits f.body.length)])) := by
  constructor
  · have h := decode_encodeFrame f [] (by simp) hf
    rwa [List.append_nil] at h
  · by_cases hhas : hasCl f.headers = true
    · left
      unfold encHeaders
      rw [if_neg (by simp [hhas])]
      exact List.append_nil _
    · by_cases hdirty : f.body.contains 0 = true ∨ ¬ utf8Valid f.body = true
      · right
        refine ⟨Bool.not_eq_true _ ▸ hhas, ?_⟩
        unfold encHeaders
        rw [if_pos ⟨hhas, hdirty⟩]
      · left
        unfold encHeaders
        rw [if_neg (fun hc => hdirty hc.2)]
        exact List.append_nil _

/-- Witness for the amended C1 at `c1Wit`: its binary body `[0, 1, 2]`
forces the auto-inserted `content-length: 3`, and decoding the encoding
returns exactly that normalized frame, consuming every byte. -/
theorem c1_encode_decode_roundtrip_witness :
    frameOk c1Wit ∧
      (decode (encodeFrame c1Wit) =
          .ok (some (.frame ⟨c1Wit.command, encHeaders c1Wit, c1Wit.body⟩,
            (encodeFrame c1Wit).length))
        ∧ (encHeaders c1Wit = c1Wit.headers ∨
            (hasCl c1Wit.headers = false ∧
              encHeaders c1Wit =
                c1Wit.headers ++ [(clKey, natToDigits c1Wit.body.length)]))) :=
  ⟨by decide, c1_encode_decode_roundtrip c1Wit (by decide)⟩

/-- **C3.** When the buffered headers carry a `content-length` that reads
(ASCII-case-insensitively) as the non-negative integer `n`, the parser
reads exactly `n` body bytes and requires a NUL at the next position:
with fewer than `n + 1` bytes buffered after the header separator it
returns the need-more signal (`.ok none`, upon which `decode` leaves the
buffer unchanged); when the byte after the `n` body bytes is not NUL it
returns a protocol error; otherwise it emits the frame with the `n`-byte
body (`n = 0` yielding a zero-length body `tail.take 0 = []`). -/
theorem c3_content_length_framing (cmd tail : List Nat)
    (hs : List (List Nat × List Nat)) (n : Nat)
    (hcmd : cmd ≠ []) (hlf : (10 : Nat) ∉ cmd)
    (hcr : cmd.getLast? ≠ some 13)
    (hwf : ∀ kv ∈ hs, lineOk kv)
    (hcl : get_content_length hs = .ok (some n)) :
    (tail.length < n + 1 →
      parse_frame_slice (mkFrameInput cmd hs tail) = .ok none)
    ∧ (n + 1 ≤ tail.length → (tail.drop n).head? = some 0 →
      parse_frame_slice (mkFrameInput cmd hs tail) =
        .ok (some ⟨cmd, hs, some (tail.take n),
          cmd.length + 1 + ((headerBlockRaw hs).length + 1) + n + 1 +
            (if (tail.drop (n + 1)).head? = some 10 then 1 else 0)⟩))
    ∧ (n + 1 ≤ tail.length → ∀ b, (tail.drop n).head? = some b → b ≠ 0 →
      parse_frame_slice (mkFrameInput cmd hs tail) =
        .error "missing NUL terminator after content-length body") := by
  rw [parse_front cmd hs tail hcmd hlf hcr hwf]
  unfold parseBody
  rw [hcl]
  dsimp only
  refine ⟨?_, ?_, ?_⟩
  · intro h
    rw [if_pos h]
  · intro h h0
    rw [if_neg (by omega)]
    rw [h0]
  · intro h b hb hb0
    rw [if_neg (by omega)]
    rw [hb]
    rcases b with _ | b'
    · exact absurd rfl hb0
    · rfl

/-- Witness for C3 with the mixed-case header `Content-Length:2`: a
2-byte tail asks for more bytes, a tail `ab\0XYZ` emits the frame with
body `ab`, and a tail `abQ\0` is the missing-NUL protocol error. -/
theorem c3_content_length_framing_witness :
    (parse_frame_slice (mkFrameInput (ascii "SEND") c3Hdrs c3TailShort) =
      .ok none)
    ∧ (parse_frame_slice (mkFrameInput (ascii "SEND") c3Hdrs c3Tail) =
      .ok (some ⟨ascii "SEND", c3Hdrs, some (c3Tail.take 2),
        (ascii "SEND").length + 1 + ((headerBlockRaw c3Hdrs).length + 1) +
          2 + 1 + (if (c3Tail.drop 3).head? = some 10 then 1 else 0)⟩))
    ∧ (parse_frame_slice (mkFrameInput (ascii "SEND") c3Hdrs c3TailBad) =
      .error "missing NUL terminator after content-length body") := by
  refine ⟨?_, ?_, ?_⟩
  · exact (c3_content_length_framing (ascii "SEND") c3TailShort c3Hdrs 2
      (by decide) (by decide) (by decide) (by decide) (by decide)).1 (by decide)
  · exact (c3_content_length_framing (ascii "SEND") c3Tail c3Hdrs 2
      (by decide) (by decide) (by decide) (by decide) (by decide)).2.1
      (by decide) (by decide)
  · exact (c3_content_length_framing (ascii "SEND") c3TailBad c3Hdrs 2
      (by decide) (by decide) (by decide) (by decide) (by decide)).2.2
      (by decide) 81 (by decide) (by decide)

/-- **C8.** A header line (non-empty, before the blank separator) that
contains no `:` makes decoding fail with a protocol error — the line is
neither skipped nor does a frame come out. -/
theorem c8_header_without_colon (cmd bad rest : List Nat)
    (hs : List (List Nat × List Nat))
    (hcmd : cmd ≠ []) (hlf : (10 : Nat) ∉ cmd)
    (hwf : ∀ kv ∈ hs, lineOk kv)
    (hbne : bad ≠ []) (hb10 : (10 : Nat) ∉ bad) (hb58 : (58 : Nat) ∉ bad) :
    decode (mkBadHeaderInput cmd hs bad rest) =
      .error "malformed header line" := by
  obtain ⟨a, cmd', rfl⟩ := List.exists_cons_of_ne_nil hcmd
  set X := headerBlockRaw hs ++ (bad ++ 10 :: rest) with hX
  have ha : (a == (10 : Nat)) = false := by
    simp only [beq_eq_false_iff_ne]
    intro h
    exact hlf (h ▸ List.mem_cons_self a cmd')
  have hparse : parse_frame_slice (mkBadHeaderInput (a :: cmd') hs bad rest) =
      .error "malformed header line" := by
    have h1 : List.takeWhile (fun b => b == (10 : Nat))
        ((a :: cmd') ++ 10 :: X) = [] := by
      show List.takeWhile (fun b => b == (10 : Nat))
        (a :: (cmd' ++ 10 :: X)) = []
      simp [List.takeWhile_cons, ha]
    have h2 : List.findIdx? (fun b => b == (10 : Nat))
        ((a :: cmd') ++ 10 :: X) = some (a :: cmd').length :=
      findIdxMarker X (fun x hx => by
        simp only [beq_eq_false_iff_ne]
        intro hx10
        exact hlf (hx10 ▸ hx)) (by simp)
    have h5 : ((a :: cmd') ++ 10 :: X).drop ((a :: cmd').length + 1) = X := by
      rw [show (a :: cmd') ++ 10 :: X = ((a :: cmd') ++ [10]) ++ X by simp]
      exact List.drop_left' (by simp)
    have h6 : parseHeaderLines (X.length + 1) X [] =
        .error "malformed header line" := by
      rw [hX]
      exact parseHeaderLines_linesBad hs bad rest [] _ hwf hbne hb10 hb58 (by
        have := hbr_len_ge hs
        simp only [List.length_append, List.length_cons]
        omega)
    unfold parse_frame_slice mkBadHeaderInput
    rw [← hX, h1]
    simp only [List.length_nil, List.drop_zero]
    rw [h2]
    dsimp only
    rw [h5, h6]
  have hhead : ¬ a = 10 := by
    intro h
    exact hlf (h ▸ List.mem_cons_self a cmd')
  rw [show mkBadHeaderInput (a :: cmd') hs bad rest =
    a :: (cmd' ++ 10 :: X) from rfl]
  rw [decode_cons_ne a _ hhead]
  rw [show a :: (cmd' ++ 10 :: X) =
    mkBadHeaderInput (a :: cmd') hs bad rest from rfl]
  rw [hparse]

/-- Witness for C8: with a well-formed `destination` header followed by
the colon-free line `justtext`, decoding errors out. -/
theorem c8_header_without_colon_witness :
    decode (mkBadHeaderInput (ascii "SEND") c8Hdrs c8Bad (ascii "rest")) =
      .error "malformed header line" :=
  c8_header_without_colon (ascii "SEND") c8Bad (ascii "rest") c8Hdrs
    (by decide) (by decide) (by decide) (by decide) (by decide) (by decide)

/-- **C9.** For every text `t`, unescaping the escape of `t` yields `t`:
`escape_header_value` replaces `\` with `\\`, CR with `\r`, LF with `\n`
and `:` with `\c` (it is applied to header keys and values by
`StompCodec::encode`), and `unescape_header_value` reverses it, recovering
the original bytes verbatim. -/
theorem c9_unescape_escape (t : List Nat) :
    unescape_header_value (escape_header_value t) = some t :=
  unescape_escape t

/-- **C4.** Decoding the byte stream
`\nSEND\n\nhi\0\n\nMESSAGE\nmessage-id:1\n\nbody\0\n\n` yields exactly
the item sequence heartbeat, SEND frame, heartbeat, MESSAGE frame,
heartbeat: the single LF after each frame's NUL is consumed as part of
that frame's boundary, while the LFs beyond it are heartbeats. -/
theorem c4_heartbeat_interleave :
    feed [c4Stream] =
      ([.heartbeat, .frame c4SendFrame, .heartbeat, .frame c4MessageFrame,
        .heartbeat], [], false) := by
  decide

end Stomp

namespace Conn

/-- **C5.** For all client intervals `(cx, cy)` and server intervals
`(sx, sy)` (milliseconds), `negotiate_heartbeats cx cy sx sy` returns the
outgoing interval `max cx sy` and the incoming interval `max cy sx`, each
reported as `none` (disabled) exactly when the computed maximum is zero.
(`Connection::connect` passes the client pair as `(client_out, client_in)`
and the server pair as `(server_out, server_in)`.) -/
theorem c5_negotiate_heartbeats (cx cy sx sy : Nat) :
    negotiate_heartbeats cx cy sx sy =
      ((if max cx sy = 0 then none else some (max cx sy)),
       (if max cy sx = 0 then none else some (max cy sx)))
    ∧ ((negotiate_heartbeats cx cy sx sy).1 = none ↔ max cx sy = 0)
    ∧ ((negotiate_heartbeats cx cy sx sy).2 = none ↔ max cy sx = 0) := by
  refine ⟨rfl, ?_, ?_⟩ <;>
    (unfold negotiate_heartbeats; dsimp only; split <;> simp_all)

/-- **C6.** On a subscription recorded with ack mode `client`, `ack s m`
removes every pending entry up to and including the (first) one whose
message-id is `m`, leaves the entries after it untouched (the queue
becomes its suffix after that entry, the key being dropped if it
empties), and produces an outbound `ACK` frame with headers `id:m` and
`subscription:s`. -/
theorem c6_client_ack_cumulative (subs : Subscriptions) (pending : PendingMap)
    (s m : String) (q : List (String × Frame)) (pos : Nat)
    (hmode : lookupAckMode subs s = "client")
    (hq : mapGet pending s = some q)
    (hpos : q.findIdx? (fun e => e.1 == m) = some pos) :
    ack subs pending s m =
      (if q.drop (pos + 1) = [] then mapRemove pending s
       else mapSet pending s (q.drop (pos + 1)),
       Frame.mk "ACK" [("id", m), ("subscription", s)] []) := by
  simp only [ack, ackRemove, hq, hpos, hmode, Frame.header]
  simp

/-- Witness for C6: with pending `[m1, m2, m3]` for `s1` in `client`
mode, `ack s1 m2` leaves exactly `[m3]` and emits
`ACK / id:m2 / subscription:s1`. -/
theorem c6_client_ack_cumulative_witness :
    ack c6Subs c6Pending "s1" "m2" =
      (mapSet c6Pending "s1" [("m3", c6Frame "m3")],
       Frame.mk "ACK" [("id", "m2"), ("subscription", "s1")] []) := by
  have h := c6_client_ack_cumulative c6Subs c6Pending "s1" "m2" c6Queue 1
    (by decide) (by decide) (by decide)
  exact h.trans (by decide)

/-- **C10.** When `ack` or `nack` is invoked for a subscription id that
still has pending entries but no entry in the subscription table, the ack
mode silently defaults to `client`, so removal is cumulative: every entry
up to and including the matched message-id is removed, not only the
match. -/
theorem c10_ack_defaults_to_client (subs : Subscriptions)
    (pending : PendingMap) (s m : String) (q : List (String × Frame))
    (pos : Nat)
    (hnone : subs.flatMap (fun dv => dv.2.filter (fun e => e.id == s)) = [])
    (hq : mapGet pending s = some q)
    (hpos : q.findIdx? (fun e => e.1 == m) = some pos) :
    ack subs pending s m =
      (if q.drop (pos + 1) = [] then mapRemove pending s
       else mapSet pending s (q.drop (pos + 1)),
       Frame.mk "ACK" [("id", m), ("subscription", s)] [])
    ∧ nack subs pending s m =
      (if q.drop (pos + 1) = [] then mapRemove pending s
       else mapSet pending s (q.drop (pos + 1)),
       Frame.mk "NACK" [("id", m), ("subscription", s)] []) := by
  have hmode : lookupAckMode subs s = "client" := by
    unfold lookupAckMode
    rw [hnone]
  constructor <;>
    · simp only [ack, nack, ackRemove, hq, hpos, hmode, Frame.header]
      simp

/-- Witness for C10: `sOld` has pending `[a, b, c]` but no subscription
entry; `ack sOld b` removes `a` and `b` cumulatively, leaving `[c]`. -/
theorem c10_ack_defaults_to_client_witness :
    ack c10Subs c10Pending "sOld" "b" =
      (mapSet c10Pending "sOld" [("c", c6Frame "c")],
       Frame.mk "ACK" [("id", "b"), ("subscription", "sOld")] []) := by
  have h := (c10_ack_defaults_to_client c10Subs c10Pending "sOld" "b"
    c10Queue 1 (by decide) (by decide) (by decide)).1
  exact h.trans (by decide)

/-- **C7, counterexample.** A MESSAGE frame that is delivered to a
matching subscription endpoint is *also* forwarded to the generic inbound
channel (`in_tx.send(f)` runs after the MESSAGE dispatch arm), so the
claim that MESSAGE frames go only to subscription endpoints is false. -/
theorem c7_message_also_inbound_cex :
    (routeInbound c7Subs [] [] c7Msg).2.2 =
      [.toSubscription "s1" c7Msg, .toInbound c7Msg] := by
  decide

/-- **C7, amended.** Routing is selected by the command: a RECEIPT frame
whose `receipt-id` matches a registered pending receipt resolves that
receipt's one-shot notifier, removes the registration, and is never
forwarded to the generic inbound channel; a MESSAGE frame is delivered
(as clones) to every matching subscription endpoint *and additionally*
forwarded to the generic inbound channel. -/
theorem c7_routing_amended (subs : Subscriptions) (prs : List String)
    (pending : PendingMap) (f : Frame) :
    (∀ rid, f.command = "RECEIPT" → f.get_header "receipt-id" = some rid →
      prs.contains rid = true →
      routeInbound subs prs pending f =
        (pending, prs.erase rid, [.resolveReceipt rid]))
    ∧ (∀ sid, f.command = "MESSAGE" →
      lastHeaderCi f "subscription" = some sid →
      (routeInbound subs prs pending f).2.2 =
        (subs.flatMap (fun dv => dv.2.filter (fun e => e.id == sid))).map
          (fun e => RouteEffect.toSubscription e.id f) ++ [.toInbound f]) := by
  constructor
  · intro rid h1 h2 h3
    have h3' : rid ∈ prs := by
      simpa using h3
    simp [routeInbound, h1, h2, h3, h3']
  · intro sid h1 h2
    simp [routeInbound, h1, h2]

/-- Witness for C7 (amended): a RECEIPT for registered `r1` resolves and
removes it without touching the inbound channel, and a MESSAGE for `s1`
reaches both the subscription endpoint and the inbound channel. -/
theorem c7_routing_amended_witness :
    routeInbound c7Subs ["r1"] [] c7Receipt = ([], [], [.resolveReceipt "r1"])
    ∧ (routeInbound c7Subs [] [] c7Msg2).2.2 =
      [.toSubscription "s1" c7Msg2, .toInbound c7Msg2] := by
  constructor
  · have h := (c7_routing_amended c7Subs ["r1"] [] c7Receipt).1 "r1"
      (by decide) (by decide) (by decide)
    exact h.trans (by decide)
  · have h := (c7_routing_amended c7Subs [] [] c7Msg2).2 "s1"
      (by decide) (by decide)
    exact h.trans (by decide)

end Conn
